import Mathlib

/-!
Verification of the `recal` terminal calendar (src/main.rs): the event-rule
recurrence engine (rule parsing, date-rule evaluation, year-span expansion)
and the calendar grid layout computations.

Dates are modelled as proleptic Gregorian calendar dates, the arithmetic of
the external `chrono` crate (NaiveDate) being embedded through a
days-since-epoch conversion pair (`toRataDie` / `ofRataDie`).  Rust strings
are modelled as `List Char` (the rules in scope are ASCII, where byte and
character indexing agree).  Rust's truncating integer division on `i32`/`i64`
is `Int.tdiv`/`Int.tmod`; where the source divides provably non-negative
quantities this coincides with Lean's `/` on `Int`.
-/

set_option maxHeartbeats 1000000

/-- Proleptic Gregorian calendar date, the data carried by a chrono
`NaiveDate`. -/
structure Date where
  year : Int
  month : Nat
  day : Nat
deriving DecidableEq, Repr

/-- Gregorian leap-year rule. -/
def isLeapYear (y : Int) : Bool :=
  (y % 4 == 0 && y % 100 != 0) || y % 400 == 0

/-- Number of days in a calendar month (0 for an out-of-range month index). -/
def monthLength (y : Int) (m : Nat) : Nat :=
  match m with
  | 1 => 31 | 2 => if isLeapYear y then 29 else 28 | 3 => 31 | 4 => 30
  | 5 => 31 | 6 => 30 | 7 => 31 | 8 => 31 | 9 => 30 | 10 => 31 | 11 => 30
  | 12 => 31 | _ => 0

/-- A (year, month, day) triple denotes an actual calendar date. -/
def validYmd (y : Int) (m d : Nat) : Bool :=
  1 ≤ m && m ≤ 12 && 1 ≤ d && d ≤ monthLength y m

/-- Model of chrono `NaiveDate::from_ymd_opt`: `some` exactly on valid
calendar dates (chrono's internal ±262143 year cap is not modelled; the
program treats dates as pure calendar data). -/
def fromYmd? (y : Int) (m d : Nat) : Option Date :=
  if validYmd y m d then some ⟨y, m, d⟩ else none

/-- Days since 1970-01-01 of a calendar date (standard civil-from-date
computation on the proleptic Gregorian calendar). -/
def toRataDie (dt : Date) : Int :=
  let y : Int := if dt.month ≤ 2 then dt.year - 1 else dt.year
  let era : Int := y / 400
  let yoe : Int := y - era * 400
  let mp : Int := if dt.month ≤ 2 then (dt.month : Int) + 9 else (dt.month : Int) - 3
  let doy : Int := (153 * mp + 2) / 5 + (dt.day : Int) - 1
  let doe : Int := yoe * 365 + yoe / 4 - yoe / 100 + doy
  era * 146097 + doe - 719468

/-- Era (400-year block) of a day count. -/
def rdEra (z : Int) : Int := (z + 719468) / 146097

/-- Day-of-era of a day count, in `[0, 146096]`. -/
def rdDoe (z : Int) : Int := z + 719468 - rdEra z * 146097

/-- Year-of-era of a day count: first guess `doe / 365`, corrected down by
one when the guess's year starts after `doe`. -/
def rdYoe (z : Int) : Int :=
  let doe := rdDoe z
  let g := min (doe / 365) 399
  if doe < 365 * g + g / 4 - g / 100 then g - 1 else g

/-- Day-of-year (0-based, March first) of a day count. -/
def rdDoy (z : Int) : Int := rdDoe z - (365 * rdYoe z + rdYoe z / 4 - rdYoe z / 100)

/-- Shifted month index (0 = March … 11 = February) of a day count. -/
def rdMp (z : Int) : Int := (5 * rdDoy z + 2) / 153

/-- Calendar date of a days-since-1970-01-01 count: inverse of `toRataDie`. -/
def ofRataDie (z : Int) : Date :=
  let mp := rdMp z
  let d := rdDoy z - (153 * mp + 2) / 5 + 1
  let m := if mp < 10 then mp + 3 else mp - 9
  ⟨(if m ≤ 2 then rdYoe z + rdEra z * 400 + 1 else rdYoe z + rdEra z * 400),
   m.toNat, d.toNat⟩

/-- Model of chrono date plus a signed number of days
(`NaiveDate + Duration::days(k)`). -/
def Date.addDays (dt : Date) (k : Int) : Date :=
  ofRataDie (toRataDie dt + k)

inductive Weekday where
  | mon | tue | wed | thu | fri | sat | sun
deriving DecidableEq, Repr

/-- chrono `Weekday::num_days_from_monday`. -/
def numDaysFromMonday (w : Weekday) : Nat :=
  match w with
  | .mon => 0 | .tue => 1 | .wed => 2 | .thu => 3 | .fri => 4 | .sat => 5 | .sun => 6

/-- chrono `Weekday::num_days_from_sunday`. -/
def numDaysFromSunday (w : Weekday) : Nat :=
  match w with
  | .sun => 0 | .mon => 1 | .tue => 2 | .wed => 3 | .thu => 4 | .fri => 5 | .sat => 6

/-- Weekday of a date (1970-01-01 is a Thursday). -/
def Date.weekday (dt : Date) : Weekday :=
  let r := ((toRataDie dt + 3) % 7).toNat
  if r = 0 then .mon else if r = 1 then .tue else if r = 2 then .wed
  else if r = 3 then .thu else if r = 4 then .fri else if r = 5 then .sat else .sun

/-- Weekday denoted by an eCal day-of-week number 1=Monday .. 7=Sunday
(the `match dow_num` table in `find_nth_dow`). -/
def weekdayOfDowNum (dow : Nat) : Option Weekday :=
  match dow with
  | 1 => some .mon | 2 => some .tue | 3 => some .wed | 4 => some .thu
  | 5 => some .fri | 6 => some .sat | 7 => some .sun | _ => none

/-- The `while current_date.month() == month && current_date.weekday() != target`
advance-one-day loop of `find_nth_dow`.  The fuel bound 62 is never reached:
starting from the first of a valid month the loop stops within 7 steps. -/
def findDowLoop (fuel : Nat) (cur : Date) (month : Nat) (w : Weekday) : Date :=
  match fuel with
  | 0 => cur
  | fuel + 1 =>
      if cur.month = month ∧ cur.weekday ≠ w then
        findDowLoop fuel (cur.addDays 1) month w
      else cur

/-- `find_nth_dow` from src/main.rs: Nth weekday of a month, `n = 5` falling
back one week when the fifth occurrence leaves the month. -/
def find_nth_dow (year : Int) (month dow_num n : Nat) : Option Date :=
  if n = 0 ∨ n > 5 ∨ dow_num = 0 ∨ dow_num > 7 then none
  else
    match weekdayOfDowNum dow_num with
    | none => none
    | some target =>
      match fromYmd? year month 1 with
      | none => none
      | some first_day =>
        let cur := findDowLoop 62 first_day month target
        if cur.month = month then
          let cur2 := cur.addDays (7 * ((n : Int) - 1))
          let cur3 := if n = 5 ∧ cur2.month ≠ month then cur2.addDays (-7) else cur2
          if cur3.month = month then some cur3 else none
        else none

/-- The days of month `m` of year `y` that fall on weekday `w`, in order. -/
def dowOccurrences (y : Int) (m : Nat) (w : Weekday) : List Nat :=
  (List.range' 1 (monthLength y m)).filter (fun d => Date.weekday ⟨y, m, d⟩ == w)

/-- `calculate_easter_date` from src/main.rs: Gauss Easter algorithm, `none`
for years before 1583.  Rust `i32` division/remainder is `Int.tdiv`/`Int.tmod`;
the `month as u32` / `day as u32` casts are `Int.toNat` (the values are
non-negative). -/
def calculate_easter_date (year : Int) : Option Date :=
  if year < 1583 then none
  else
    let a := year.tmod 19
    let b := year.tdiv 100
    let c := year.tmod 100
    let d := b.tdiv 4
    let e := b.tmod 4
    let f := (b + 8).tdiv 25
    let g := (b - f + 1).tdiv 3
    let h := (19 * a + b - d - g + 15).tmod 30
    let i := c.tdiv 4
    let k := c.tmod 4
    let l := (32 + 2 * e + 2 * i - h - k).tmod 7
    let m := (a + 11 * h + 22 * l).tdiv 451
    let month := (h + l - 7 * m + 114).tdiv 31
    let day := (h + l - 7 * m + 114).tmod 31 + 1
    fromYmd? year month.toNat day.toNat

/-! String-level modelling.  Rust `&str` values are `List Char`; the rule
grammar in scope is ASCII, where Rust's byte indices coincide with character
indices. -/

/-- Rust `char::is_whitespace` on the characters in scope. -/
def isWs (c : Char) : Bool := c.isWhitespace

/-- Rust `str::trim`. -/
def trimStr (s : List Char) : List Char :=
  ((s.dropWhile isWs).reverse.dropWhile isWs).reverse

/-- Split at the first occurrence of `c` (`str::find` plus slicing, or
`splitn(2, c)` when two pieces arise). -/
def splitFirst? (c : Char) : List Char → Option (List Char × List Char)
  | [] => none
  | x :: xs =>
      if x = c then some ([], xs)
      else (splitFirst? c xs).map (fun p => (x :: p.1, p.2))

/-- Split at the first character satisfying `p` (Rust `str::split_once`). -/
def splitFirstPred? (p : Char → Bool) : List Char → Option (List Char × List Char)
  | [] => none
  | x :: xs =>
      if p x then some ([], xs)
      else (splitFirstPred? p xs).map (fun q => (x :: q.1, q.2))

/-- Decimal value of a digit string. -/
def digitsVal (s : List Char) : Nat :=
  s.foldl (fun acc c => acc * 10 + (c.toNat - 48)) 0

/-- Value of a non-empty all-digit string. -/
def digitsToNat? (s : List Char) : Option Nat :=
  if s ≠ [] ∧ s.all Char.isDigit then some (digitsVal s) else none

/-- Rust `u32::from_str`: optional `+` sign, decimal digits, value below 2^32. -/
def parseU32? (s : List Char) : Option Nat :=
  let s' := match s with
    | '+' :: rest => rest
    | _ => s
  match digitsToNat? s' with
  | some v => if v < 4294967296 then some v else none
  | none => none

/-- Rust `i64::from_str`: optional sign, decimal digits, `i64` range. -/
def parseI64? (s : List Char) : Option Int :=
  if s.head? = some '+' then
    (digitsToNat? (s.drop 1)).bind
      (fun v => if (v : Int) ≤ 9223372036854775807 then some (v : Int) else none)
  else if s.head? = some '-' then
    (digitsToNat? (s.drop 1)).bind
      (fun v => if (v : Int) ≤ 9223372036854775808 then some (-(v : Int)) else none)
  else
    (digitsToNat? s).bind
      (fun v => if (v : Int) ≤ 9223372036854775807 then some (v : Int) else none)

/-- A numeric field of a chrono date format string: non-empty, all digits,
at most `maxLen` digits. -/
def pieceNat? (maxLen : Nat) (s : List Char) : Option Nat :=
  if s ≠ [] ∧ s.length ≤ maxLen ∧ s.all Char.isDigit then some (digitsVal s) else none

/-- `parse_fixed_date_rule` from src/main.rs: chrono `parse_from_str` against
`%d-%m-%Y`, then `%m/%d/%Y`, then `%Y-%m-%d` (day and month fields one or two
digits, year up to four digits, whole string consumed, then calendar
validity). -/
def parse_fixed_date_rule (rule : List Char) : Option Date :=
  match
    (match rule.splitOn '-' with
     | [p1, p2, p3] =>
         match pieceNat? 2 p1, pieceNat? 2 p2, pieceNat? 4 p3 with
         | some dd, some mm, some yy => fromYmd? yy mm dd
         | _, _, _ => none
     | _ => none) with
  | some dt => some dt
  | none =>
    match
      (match rule.splitOn '/' with
       | [p1, p2, p3] =>
           match pieceNat? 2 p1, pieceNat? 2 p2, pieceNat? 4 p3 with
           | some mm, some dd, some yy => fromYmd? yy mm dd
           | _, _, _ => none
       | _ => none) with
    | some dt => some dt
    | none =>
        match rule.splitOn '-' with
        | [p1, p2, p3] =>
            match pieceNat? 4 p1, pieceNat? 2 p2, pieceNat? 2 p3 with
            | some yy, some mm, some dd => fromYmd? yy mm dd
            | _, _, _ => none
        | _ => none

/-- The weekday table of the conditional-rule branch
(0=Sunday .. 6=Saturday). -/
def weekdayOfCondDigit (dnum : Nat) : Option Weekday :=
  match dnum with
  | 0 => some .sun | 1 => some .mon | 2 => some .tue | 3 => some .wed
  | 4 => some .thu | 5 => some .fri | 6 => some .sat | _ => none

/-- First piece of a Rust `split(c)` iterator, with the remainder when the
separator occurs (`parts.next()`). -/
def splitHead (c : Char) (s : List Char) : List Char × Option (List Char) :=
  match splitFirst? c s with
  | none => (s, none)
  | some (a, rest) => (a, some rest)

/-- Lines 380-416 of src/main.rs: the conditional-rule tail once the literal
`MM/DD` date of the year exists.  A condition of three or more characters is
tried as `D[+-]OFFSET` (each failing step returns `none`); a weekday mismatch
falls through to the numeric-or-empty fallback, which returns the plain
date. -/
def condRuleResult (condPart : List Char) (targetDate : Date) : Option Date :=
  let numericFallback : Option Date :=
    if condPart = [] ∨ condPart.all Char.isDigit then some targetDate else none
  if 3 ≤ condPart.length then
    match condPart[0]? with
    | none => none
    | some c0 =>
      match (if c0.isDigit then some (c0.toNat - 48) else none) with
      | none => none
      | some dnum =>
        match condPart[1]? with
        | none => none
        | some op =>
          match parseI64? (condPart.drop 2) with
          | none => none
          | some off =>
            match weekdayOfCondDigit dnum with
            | none => none
            | some targetW =>
                if targetDate.weekday = targetW then
                  match (match op with
                         | '+' => some off
                         | '-' => some (-off)
                         | _ => none) with
                  | none => none
                  | some finalOff => some (targetDate.addDays finalOff)
                else numericFallback
  else numericFallback

/-- `calculate_date_from_rule` from src/main.rs: Easter-relative, Nth-weekday,
conditional, and annual rules, tried in source order. -/
def calculate_date_from_rule (rule0 : List Char) (year : Int) : Option Date :=
  let rule := trimStr rule0
  if rule.head? = some 'E' then
    match (if rule = ['E'] then some (0 : Int)
           else if rule.length > 1 then parseI64? (rule.drop 1) else none) with
    | none => none
    | some off => (calculate_easter_date year).map (fun dt => dt.addDays off)
  else
    match splitFirst? '#' rule with
    | some (datePart, nStr) =>
        match splitHead '/' datePart with
        | (_, none) => none
        | (ms, some rest1) =>
            let ds := (splitHead '/' rest1).1
            (parseU32? ms).bind fun month =>
            (parseU32? ds).bind fun dow0 =>
            let dow := if dow0 = 0 then 7 else dow0
            (parseU32? nStr).bind fun n =>
            find_nth_dow year month dow n
    | none =>
      match splitFirst? '?' rule with
      | some (datePart, condPart) =>
          match splitHead '/' datePart with
          | (_, none) => none
          | (ms, some rest1) =>
              let ds := (splitHead '/' rest1).1
              (parseU32? ms).bind fun month =>
              (parseU32? ds).bind fun day =>
              (fromYmd? year month day).bind fun targetDate =>
              condRuleResult condPart targetDate
      | none =>
          if rule.count '/' = 1 then
            match splitHead '/' rule with
            | (_, none) => none
            | (ms, some rest1) =>
                let ds := (splitHead '/' rest1).1
                (parseU32? ms).bind fun month =>
                (parseU32? ds).bind fun day =>
                fromYmd? year month day
          else none

/-- The configuration record of src/main.rs (CLI parsing itself is out of
scope). -/
structure Config where
  num_months : Nat
  start_month : Nat
  start_year : Int
  monday_first : Bool
  show_calendar : Bool
  show_events : Bool
  num_columns : Nat

/-- One concrete event occurrence (the `Event` struct of src/main.rs). -/
structure Event where
  date : Date
  description : List Char
  category : Option (List Char)
  fg_color : Option (List Char)
  bg_color : Option (List Char)
  original_year : Option Int
deriving DecidableEq, Repr

/-- The last year examined by the recurrence expansion
(src/main.rs lines 180-181, `i64` arithmetic, truncating division). -/
def end_year_check (c : Config) : Int :=
  (c.start_year * 12 + c.start_month + c.num_months - 1).tdiv 12

/-- The years visited by `start_year..=end_year_check`. -/
def yearRange (lo hi : Int) : List Int :=
  if lo ≤ hi then (List.range (hi - lo + 1).toNat).map (fun (i : Nat) => lo + (i : Int)) else []

/-- Rule-line parsing (src/main.rs lines 188-244): `none` for blank and `#`
comment lines, otherwise the `(rule_text, description, category, fg_color,
bg_color)` tuple. -/
def parseLine (line0 : List Char) :
    Option (List Char × List Char × Option (List Char) × Option (List Char) ×
      Option (List Char)) :=
  let line := trimStr line0
  if line = [] then none
  else if line.head? = some '#' then none
  else
    match splitFirst? ';' line with
    | some (left, right) =>
        let rulePart := trimStr left
        let rest := trimStr right
        if rest.head? = some '[' then
          match splitFirst? ']' rest with
          | some (pre, post) =>
              let metaParts := ((pre.drop 1).splitOn ',').map trimStr
              let category := match metaParts[0]? with
                | some p => if p ≠ [] then some p else none
                | none => none
              let fg := match metaParts[1]? with
                | some p => if p ≠ [] then some p else none
                | none => none
              let bg := match metaParts[2]? with
                | some p => if p ≠ [] then some p else none
                | none => none
              some (rulePart, trimStr post, category, fg, bg)
          | none => some (rulePart, rest, none, none, none)
        else some (rulePart, rest, none, none, none)
    | none =>
        let rulePart := trimStr line
        match splitFirstPred? isWs rulePart with
        | some (_, desc) => some (rulePart, trimStr desc, none, none, none)
        | none => some (rulePart, [], none, none, none)

/-- The per-rule year loop of `load_events` (lines 284-319): one candidate
date per year, skipped when already produced (the `added_years` hash set,
modelled as the `seen` list). -/
def expandLoop (gen : Int → Option (Date × Option Int)) (mk : Date → Option Int → Event) :
    List Int → List Date → List Event
  | [], _ => []
  | yr :: yrs, seen =>
      match gen yr with
      | some (dt, oy) =>
          if dt ∈ seen then expandLoop gen mk yrs seen
          else mk dt oy :: expandLoop gen mk yrs (dt :: seen)
      | none => expandLoop gen mk yrs seen

/-- Events contributed by a single input line (`load_events` body for one
line). -/
def processLine (startY endY : Int) (line : List Char) : List Event :=
  match parseLine line with
  | none => []
  | some (rulePart, desc, category, fg, bg) =>
      match parse_fixed_date_rule rulePart with
      | some bd =>
          if category = some ("bday".data) ∨ category = some ("anni".data) then
            expandLoop
              (fun yr =>
                if bd.year ≤ yr then
                  (fromYmd? yr bd.month bd.day).map (fun dt => (dt, some bd.year))
                else none)
              (fun dt oy => ⟨dt, desc, category, fg, bg, oy⟩)
              (yearRange startY endY) []
          else
            if startY ≤ bd.year ∧ bd.year ≤ endY then
              match fromYmd? bd.year bd.month bd.day with
              | some dt => [⟨dt, desc, category, fg, bg, none⟩]
              | none => []
            else []
      | none =>
          expandLoop
            (fun yr => (calculate_date_from_rule rulePart yr).map (fun dt => (dt, none)))
            (fun dt oy => ⟨dt, desc, category, fg, bg, oy⟩)
            (yearRange startY endY) []

/-- `load_events` from src/main.rs, over the already-read lines of the rule
file: expand every line, then stable-sort by date. -/
def load_events (lines : List (List Char)) (config : Config) : List Event :=
  (lines.flatMap (processLine config.start_year (end_year_check config))).mergeSort
    (fun a b => decide (toRataDie a.date ≤ toRataDie b.date))

/-- Year of the month displayed at offset `idx` (src/main.rs lines 533-535). -/
def display_year (c : Config) (idx : Nat) : Int :=
  (c.start_year * 12 + c.start_month + idx - 1).tdiv 12

/-- Month displayed at offset `idx` (src/main.rs line 536). -/
def display_month (c : Config) (idx : Nat) : Int :=
  (c.start_year * 12 + c.start_month + idx - 1).tmod 12 + 1

/-- The anniversary number the events list computes for an event
(src/main.rs lines 776-791): defined only for `bday`/`anni` events carrying
an original year. -/
def anniversaryNum (e : Event) : Option Int :=
  match e.original_year, e.category with
  | some oy, some cat =>
      if cat = "bday".data ∨ cat = "anni".data then some (e.date.year - oy) else none
  | _, _ => none

/-- First day of the display window (src/main.rs lines 729-733). -/
def display_start_date (c : Config) : Date := ⟨c.start_year, c.start_month, 1⟩

/-- First day after the display window (src/main.rs lines 736-740). -/
def display_end_date (c : Config) : Date :=
  let tot := c.start_year * 12 + c.start_month + c.num_months
  ⟨(tot - 1).tdiv 12, ((tot - 1).tmod 12 + 1).toNat, 1⟩

/-- The events list rendering (src/main.rs `display_events_list`): window
filter, anniversary annotation, and the relative-day count against the
current date. -/
def display_events_list (c : Config) (events : List Event) (today : Date) :
    List (Event × Option Int × Int) :=
  (events.filter (fun e =>
      decide (toRataDie (display_start_date c) ≤ toRataDie e.date) &&
      decide (toRataDie e.date < toRataDie (display_end_date c)))).map
    (fun e => (e, anniversaryNum e, toRataDie e.date - toRataDie today))

/-- The observable output of one program run: the expanded event list and
the rendered events listing.  The current date `today` is an explicit
parameter of the run. -/
structure ProgramOutput where
  events : List Event
  listing : List (Event × Option Int × Int)

/-- One batch run of the program core on the rule-file lines, a
configuration, and the current date. -/
def runProgram (lines : List (List Char)) (c : Config) (today : Date) : ProgramOutput :=
  let events := load_events lines c
  ⟨events, display_events_list c events today⟩

/-- `days_in_month` from src/main.rs: first of next month minus first of
this month. -/
def days_in_month (year : Int) (month : Nat) : Nat :=
  (toRataDie ⟨(if month = 12 then year + 1 else year), (if month = 12 then 1 else month + 1), 1⟩
    - toRataDie ⟨year, month, 1⟩).toNat

/-- `weeks_in_month` from src/main.rs. -/
def weeks_in_month (month_start : Date) (monday_first : Bool) : Nat :=
  let off := if monday_first then numDaysFromMonday month_start.weekday
             else numDaysFromSunday month_start.weekday
  let days := days_in_month month_start.year month_start.month
  (off + days + 6) / 7

/-- `get_week_start_day` from src/main.rs. -/
def get_week_start_day (month_start : Date) (week_num : Nat) (monday_first : Bool) : Int :=
  let off := if monday_first then numDaysFromMonday month_start.weekday
             else numDaysFromSunday month_start.weekday
  ((week_num * 7 : Nat) : Int) - off + 1

/-- The first day's weekday distance from the configured week start (the
`week_offset` computed identically in `weeks_in_month` and
`get_week_start_day`). -/
def weekOffset (ms : Date) (mf : Bool) : Nat :=
  if mf then numDaysFromMonday ms.weekday else numDaysFromSunday ms.weekday

theorem rdEra_eq (z E Y doy : Int) (hY : 0 ≤ Y) (hY4 : Y ≤ 399)
    (hdoy0 : 0 ≤ doy) (hdoy1 : doy ≤ 365)
    (hz : z + 719468 = 146097 * E + (365 * Y + Y / 4 - Y / 100) + doy) :
    rdEra z = E := by
  simp only [rdEra]
  omega

theorem rdDoe_eq (z E Y doy : Int) (hY : 0 ≤ Y) (hY4 : Y ≤ 399)
    (hdoy0 : 0 ≤ doy) (hdoy1 : doy ≤ 365)
    (hz : z + 719468 = 146097 * E + (365 * Y + Y / 4 - Y / 100) + doy) :
    rdDoe z = 365 * Y + Y / 4 - Y / 100 + doy := by
  have h1 := rdEra_eq z E Y doy hY hY4 hdoy0 hdoy1 hz
  simp only [rdDoe, h1]
  omega

theorem rdYoe_eq (z E Y doy : Int) (hY : 0 ≤ Y) (hY4 : Y ≤ 399)
    (hdoy0 : 0 ≤ doy) (hdoy1 : doy ≤ 365)
    (hleap : doy = 365 → Y % 4 = 3 ∧ (Y % 100 ≠ 99 ∨ Y % 400 = 399))
    (hz : z + 719468 = 146097 * E + (365 * Y + Y / 4 - Y / 100) + doy) :
    rdYoe z = Y := by
  have h1 := rdDoe_eq z E Y doy hY hY4 hdoy0 hdoy1 hz
  simp only [rdYoe, h1]
  have he : (365 * Y + Y / 4 - Y / 100 + doy) / 365 = Y ∨
      (365 * Y + Y / 4 - Y / 100 + doy) / 365 = Y + 1 := by omega
  rcases he with he | he <;> rw [he]
  · have hm : min Y 399 = Y := by omega
    rw [hm]
    have hc : ¬ (365 * Y + Y / 4 - Y / 100 + doy < 365 * Y + Y / 4 - Y / 100) := by omega
    simp only [if_neg hc]
  · by_cases h399 : Y = 399
    · subst h399
      have hm : min (399 + 1 : Int) 399 = 399 := by omega
      rw [hm]
      have hc : ¬ (365 * (399:Int) + (399:Int) / 4 - (399:Int) / 100 + doy <
          365 * 399 + (399:Int) / 4 - (399:Int) / 100) := by omega
      simp only [if_neg hc]
    · have hm : min (Y + 1) 399 = Y + 1 := by omega
      rw [hm]
      by_cases h365 : doy = 365
      · obtain ⟨hl1, hl2⟩ := hleap h365
        have hl3 : Y % 400 ≠ 399 := by omega
        have hl4 : Y % 100 ≠ 99 := by tauto
        have hc : 365 * Y + Y / 4 - Y / 100 + doy <
            365 * (Y + 1) + (Y + 1) / 4 - (Y + 1) / 100 := by omega
        simp only [if_pos hc]
        omega
      · have hc : 365 * Y + Y / 4 - Y / 100 + doy <
            365 * (Y + 1) + (Y + 1) / 4 - (Y + 1) / 100 := by omega
        simp only [if_pos hc]
        omega

theorem rdDoy_eq (z E Y doy : Int) (hY : 0 ≤ Y) (hY4 : Y ≤ 399)
    (hdoy0 : 0 ≤ doy) (hdoy1 : doy ≤ 365)
    (hleap : doy = 365 → Y % 4 = 3 ∧ (Y % 100 ≠ 99 ∨ Y % 400 = 399))
    (hz : z + 719468 = 146097 * E + (365 * Y + Y / 4 - Y / 100) + doy) :
    rdDoy z = doy := by
  have h1 := rdDoe_eq z E Y doy hY hY4 hdoy0 hdoy1 hz
  have h2 := rdYoe_eq z E Y doy hY hY4 hdoy0 hdoy1 hleap hz
  simp only [rdDoy, h1, h2]
  ring

theorem ofRataDie_build (z E Y doy MP : Int) (hY : 0 ≤ Y) (hY4 : Y ≤ 399)
    (hdoy0 : 0 ≤ doy) (hdoy1 : doy ≤ 365)
    (hleap : doy = 365 → Y % 4 = 3 ∧ (Y % 100 ≠ 99 ∨ Y % 400 = 399))
    (hz : z + 719468 = 146097 * E + (365 * Y + Y / 4 - Y / 100) + doy)
    (hMP : (5 * doy + 2) / 153 = MP) :
    ofRataDie z =
      ⟨(if (if MP < 10 then MP + 3 else MP - 9) ≤ 2 then Y + E * 400 + 1 else Y + E * 400),
       (if MP < 10 then MP + 3 else MP - 9).toNat,
       (doy - (153 * MP + 2) / 5 + 1).toNat⟩ := by
  have h1 := rdEra_eq z E Y doy hY hY4 hdoy0 hdoy1 hz
  have h2 := rdYoe_eq z E Y doy hY hY4 hdoy0 hdoy1 hleap hz
  have h3 := rdDoy_eq z E Y doy hY hY4 hdoy0 hdoy1 hleap hz
  simp only [ofRataDie, rdMp, h1, h2, h3, hMP]

theorem rt_m1 (y : Int) (d : Nat) (h3 : 1 ≤ d) (h4 : d ≤ 31) :
    ofRataDie (toRataDie ⟨y, 1, d⟩) = ⟨y, 1, d⟩ := by
  have hz : toRataDie ⟨y, 1, d⟩ + 719468 =
      146097 * ((y - 1) / 400) + (365 * ((y - 1) - (y - 1) / 400 * 400) + ((y - 1) - (y - 1) / 400 * 400) / 4
        - ((y - 1) - (y - 1) / 400 * 400) / 100) + (306 + (d : Int) - 1) := by
    simp only [toRataDie]
    norm_num
    ring
  have hb := ofRataDie_build (toRataDie ⟨y, 1, d⟩) ((y - 1) / 400) ((y - 1) - (y - 1) / 400 * 400)
      (306 + (d : Int) - 1) 10 (by omega) (by omega) (by omega) (by omega)
      (by intro h; omega) hz (by omega)
  rw [hb]
  norm_num
  omega

theorem rt_m3 (y : Int) (d : Nat) (h3 : 1 ≤ d) (h4 : d ≤ 31) :
    ofRataDie (toRataDie ⟨y, 3, d⟩) = ⟨y, 3, d⟩ := by
  have hz : toRataDie ⟨y, 3, d⟩ + 719468 =
      146097 * (y / 400) + (365 * (y - y / 400 * 400) + (y - y / 400 * 400) / 4
        - (y - y / 400 * 400) / 100) + (0 + (d : Int) - 1) := by
    simp only [toRataDie]
    norm_num
    ring
  have hb := ofRataDie_build (toRataDie ⟨y, 3, d⟩) (y / 400) (y - y / 400 * 400)
      (0 + (d : Int) - 1) 0 (by omega) (by omega) (by omega) (by omega)
      (by intro h; omega) hz (by omega)
  rw [hb]
  norm_num
  omega

theorem rt_m4 (y : Int) (d : Nat) (h3 : 1 ≤ d) (h4 : d ≤ 30) :
    ofRataDie (toRataDie ⟨y, 4, d⟩) = ⟨y, 4, d⟩ := by
  have hz : toRataDie ⟨y, 4, d⟩ + 719468 =
      146097 * (y / 400) + (365 * (y - y / 400 * 400) + (y - y / 400 * 400) / 4
        - (y - y / 400 * 400) / 100) + (31 + (d : Int) - 1) := by
    simp only [toRataDie]
    norm_num
    ring
  have hb := ofRataDie_build (toRataDie ⟨y, 4, d⟩) (y / 400) (y - y / 400 * 400)
      (31 + (d : Int) - 1) 1 (by omega) (by omega) (by omega) (by omega)
      (by intro h; omega) hz (by omega)
  rw [hb]
  norm_num
  omega

theorem rt_m5 (y : Int) (d : Nat) (h3 : 1 ≤ d) (h4 : d ≤ 31) :
    ofRataDie (toRataDie ⟨y, 5, d⟩) = ⟨y, 5, d⟩ := by
  have hz : toRataDie ⟨y, 5, d⟩ + 719468 =
      146097 * (y / 400) + (365 * (y - y / 400 * 400) + (y - y / 400 * 400) / 4
        - (y - y / 400 * 400) / 100) + (61 + (d : Int) - 1) := by
    simp only [toRataDie]
    norm_num
    ring
  have hb := ofRataDie_build (toRataDie ⟨y, 5, d⟩) (y / 400) (y - y / 400 * 400)
      (61 + (d : Int) - 1) 2 (by omega) (by omega) (by omega) (by omega)
      (by intro h; omega) hz (by omega)
  rw [hb]
  norm_num
  omega

theorem rt_m6 (y : Int) (d : Nat) (h3 : 1 ≤ d) (h4 : d ≤ 30) :
    ofRataDie (toRataDie ⟨y, 6, d⟩) = ⟨y, 6, d⟩ := by
  have hz : toRataDie ⟨y, 6, d⟩ + 719468 =
      146097 * (y / 400) + (365 * (y - y / 400 * 400) + (y - y / 400 * 400) / 4
        - (y - y / 400 * 400) / 100) + (92 + (d : Int) - 1) := by
    simp only [toRataDie]
    norm_num
    ring
  have hb := ofRataDie_build (toRataDie ⟨y, 6, d⟩) (y / 400) (y - y / 400 * 400)
      (92 + (d : Int) - 1) 3 (by omega) (by omega) (by omega) (by omega)
      (by intro h; omega) hz (by omega)
  rw [hb]
  norm_num
  omega

theorem rt_m7 (y : Int) (d : Nat) (h3 : 1 ≤ d) (h4 : d ≤ 31) :
    ofRataDie (toRataDie ⟨y, 7, d⟩) = ⟨y, 7, d⟩ := by
  have hz : toRataDie ⟨y, 7, d⟩ + 719468 =
      146097 * (y / 400) + (365 * (y - y / 400 * 400) + (y - y / 400 * 400) / 4
        - (y - y / 400 * 400) / 100) + (122 + (d : Int) - 1) := by
    simp only [toRataDie]
    norm_num
    ring
  have hb := ofRataDie_build (toRataDie ⟨y, 7, d⟩) (y / 400) (y - y / 400 * 400)
      (122 + (d : Int) - 1) 4 (by omega) (by omega) (by omega) (by omega)
      (by intro h; omega) hz (by omega)
  rw [hb]
  norm_num
  omega

theorem rt_m8 (y : Int) (d : Nat) (h3 : 1 ≤ d) (h4 : d ≤ 31) :
    ofRataDie (toRataDie ⟨y, 8, d⟩) = ⟨y, 8, d⟩ := by
  have hz : toRataDie ⟨y, 8, d⟩ + 719468 =
      146097 * (y / 400) + (365 * (y - y / 400 * 400) + (y - y / 400 * 400) / 4
        - (y - y / 400 * 400) / 100) + (153 + (d : Int) - 1) := by
    simp only [toRataDie]
    norm_num
    ring
  have hb := ofRataDie_build (toRataDie ⟨y, 8, d⟩) (y / 400) (y - y / 400 * 400)
      (153 + (d : Int) - 1) 5 (by omega) (by omega) (by omega) (by omega)
      (by intro h; omega) hz (by omega)
  rw [hb]
  norm_num
  omega

theorem rt_m9 (y : Int) (d : Nat) (h3 : 1 ≤ d) (h4 : d ≤ 30) :
    ofRataDie (toRataDie ⟨y, 9, d⟩) = ⟨y, 9, d⟩ := by
  have hz : toRataDie ⟨y, 9, d⟩ + 719468 =
      146097 * (y / 400) + (365 * (y - y / 400 * 400) + (y - y / 400 * 400) / 4
        - (y - y / 400 * 400) / 100) + (184 + (d : Int) - 1) := by
    simp only [toRataDie]
    norm_num
    ring
  have hb := ofRataDie_build (toRataDie ⟨y, 9, d⟩) (y / 400) (y - y / 400 * 400)
      (184 + (d : Int) - 1) 6 (by omega) (by omega) (by omega) (by omega)
      (by intro h; omega) hz (by omega)
  rw [hb]
  norm_num
  omega

theorem rt_m10 (y : Int) (d : Nat) (h3 : 1 ≤ d) (h4 : d ≤ 31) :
    ofRataDie (toRataDie ⟨y, 10, d⟩) = ⟨y, 10, d⟩ := by
  have hz : toRataDie ⟨y, 10, d⟩ + 719468 =
      146097 * (y / 400) + (365 * (y - y / 400 * 400) + (y - y / 400 * 400) / 4
        - (y - y / 400 * 400) / 100) + (214 + (d : Int) - 1) := by
    simp only [toRataDie]
    norm_num
    ring
  have hb := ofRataDie_build (toRataDie ⟨y, 10, d⟩) (y / 400) (y - y / 400 * 400)
      (214 + (d : Int) - 1) 7 (by omega) (by omega) (by omega) (by omega)
      (by intro h; omega) hz (by omega)
  rw [hb]
  norm_num
  omega

theorem rt_m11 (y : Int) (d : Nat) (h3 : 1 ≤ d) (h4 : d ≤ 30) :
    ofRataDie (toRataDie ⟨y, 11, d⟩) = ⟨y, 11, d⟩ := by
  have hz : toRataDie ⟨y, 11, d⟩ + 719468 =
      146097 * (y / 400) + (365 * (y - y / 400 * 400) + (y - y / 400 * 400) / 4
        - (y - y / 400 * 400) / 100) + (245 + (d : Int) - 1) := by
    simp only [toRataDie]
    norm_num
    ring
  have hb := ofRataDie_build (toRataDie ⟨y, 11, d⟩) (y / 400) (y - y / 400 * 400)
      (245 + (d : Int) - 1) 8 (by omega) (by omega) (by omega) (by omega)
      (by intro h; omega) hz (by omega)
  rw [hb]
  norm_num
  omega

theorem rt_m12 (y : Int) (d : Nat) (h3 : 1 ≤ d) (h4 : d ≤ 31) :
    ofRataDie (toRataDie ⟨y, 12, d⟩) = ⟨y, 12, d⟩ := by
  have hz : toRataDie ⟨y, 12, d⟩ + 719468 =
      146097 * (y / 400) + (365 * (y - y / 400 * 400) + (y - y / 400 * 400) / 4
        - (y - y / 400 * 400) / 100) + (275 + (d : Int) - 1) := by
    simp only [toRataDie]
    norm_num
    ring
  have hb := ofRataDie_build (toRataDie ⟨y, 12, d⟩) (y / 400) (y - y / 400 * 400)
      (275 + (d : Int) - 1) 9 (by omega) (by omega) (by omega) (by omega)
      (by intro h; omega) hz (by omega)
  rw [hb]
  norm_num
  omega

theorem rt_m2 (y : Int) (d : Nat) (h3 : 1 ≤ d) (h4 : d ≤ monthLength y 2) :
    ofRataDie (toRataDie ⟨y, 2, d⟩) = ⟨y, 2, d⟩ := by
  simp only [monthLength, isLeapYear, Bool.or_eq_true, Bool.and_eq_true,
    beq_iff_eq, bne_iff_ne, decide_eq_true_eq] at h4
  have h29 : d ≤ 29 := by split at h4 <;> omega
  have hz : toRataDie ⟨y, 2, d⟩ + 719468 =
      146097 * ((y - 1) / 400) + (365 * ((y - 1) - (y - 1) / 400 * 400)
        + ((y - 1) - (y - 1) / 400 * 400) / 4
        - ((y - 1) - (y - 1) / 400 * 400) / 100) + (337 + (d : Int) - 1) := by
    simp only [toRataDie]
    norm_num
    ring
  have hleap : (337 + (d : Int) - 1) = 365 →
      ((y - 1) - (y - 1) / 400 * 400) % 4 = 3 ∧
      (((y - 1) - (y - 1) / 400 * 400) % 100 ≠ 99 ∨
       ((y - 1) - (y - 1) / 400 * 400) % 400 = 399) := by
    intro h365
    have hd29 : d = 29 := by omega
    subst hd29
    split at h4
    · omega
    · omega
  have hb := ofRataDie_build (toRataDie ⟨y, 2, d⟩) ((y - 1) / 400)
      ((y - 1) - (y - 1) / 400 * 400) (337 + (d : Int) - 1) 11
      (by omega) (by omega) (by omega) (by omega) hleap hz (by omega)
  rw [hb]
  norm_num
  omega

/-- The date conversion pair round-trips on every valid calendar date. -/
theorem ofRataDie_toRataDie (y : Int) (m d : Nat) (h : validYmd y m d = true) :
    ofRataDie (toRataDie ⟨y, m, d⟩) = ⟨y, m, d⟩ := by
  simp only [validYmd, Bool.and_eq_true, decide_eq_true_eq] at h
  obtain ⟨⟨⟨h1, h2⟩, h3⟩, h4⟩ := h
  interval_cases m
  · exact rt_m1 y d h3 h4
  · exact rt_m2 y d h3 h4
  · exact rt_m3 y d h3 h4
  · exact rt_m4 y d h3 h4
  · exact rt_m5 y d h3 h4
  · exact rt_m6 y d h3 h4
  · exact rt_m7 y d h3 h4
  · exact rt_m8 y d h3 h4
  · exact rt_m9 y d h3 h4
  · exact rt_m10 y d h3 h4
  · exact rt_m11 y d h3 h4
  · exact rt_m12 y d h3 h4

theorem toRataDie_day_lin (y : Int) (m d j : Nat) :
    toRataDie ⟨y, m, j⟩ = toRataDie ⟨y, m, d⟩ + ((j : Int) - d) := by
  simp only [toRataDie]
  push_cast
  ring

theorem monthLength_bounds (y : Int) (m : Nat) (h1 : 1 ≤ m) (h2 : m ≤ 12) :
    28 ≤ monthLength y m ∧ monthLength y m ≤ 31 := by
  interval_cases m <;> simp only [monthLength] <;> first | omega | (split <;> omega)

theorem toRataDie_next_first (y : Int) (m : Nat) (h1 : 1 ≤ m) (h2 : m ≤ 12) :
    toRataDie ⟨(if m = 12 then y + 1 else y), (if m = 12 then 1 else m + 1), 1⟩ =
    toRataDie ⟨y, m, monthLength y m⟩ + 1 := by
  interval_cases m <;>
    simp only [toRataDie, monthLength, isLeapYear, Bool.or_eq_true, Bool.and_eq_true,
      beq_iff_eq, bne_iff_ne, decide_eq_true_eq] <;>
    norm_num <;>
    first | omega | (split <;> push_cast <;> omega)

example : (Date.weekday ⟨2024, 1, 1⟩) = .mon := by decide

example : (Date.weekday ⟨2023, 5, 1⟩) = .mon := by decide

example : (Date.weekday ⟨2023, 10, 1⟩) = .sun := by decide

theorem weekday_eq_iff (dt : Date) (w : Weekday) :
    dt.weekday = w ↔ (toRataDie dt + 3) % 7 = numDaysFromMonday w := by
  simp only [Date.weekday]
  set n := (toRataDie dt + 3) % 7 with hn
  have hcase : n = 0 ∨ n = 1 ∨ n = 2 ∨ n = 3 ∨ n = 4 ∨ n = 5 ∨ n = 6 := by omega
  rcases hcase with h|h|h|h|h|h|h <;> rw [h] <;> cases w <;> decide

example : find_nth_dow 2023 5 1 1 = some ⟨2023, 5, 1⟩ := by decide

example : find_nth_dow 2024 1 1 5 = some ⟨2024, 1, 29⟩ := by decide

example : find_nth_dow 2023 1 1 5 = some ⟨2023, 1, 30⟩ := by decide

theorem addDays_to (y : Int) (m d j : Nat) (k : Int) (hv2 : validYmd y m j = true)
    (hk : k = (j : Int) - d) :
    Date.addDays ⟨y, m, d⟩ k = ⟨y, m, j⟩ := by
  subst hk
  simp only [Date.addDays]
  rw [show toRataDie ⟨y, m, d⟩ + ((j : Int) - d) = toRataDie ⟨y, m, j⟩ from by
    rw [toRataDie_day_lin y m d j]]
  exact ofRataDie_toRataDie y m j hv2

theorem addDays_to_next (y : Int) (m d e : Nat) (k : Int) (h1 : 1 ≤ m) (h2 : m ≤ 12)
    (hv2 : validYmd (if m = 12 then y + 1 else y) (if m = 12 then 1 else m + 1) e = true)
    (hk : k = (monthLength y m : Int) - d + e) :
    Date.addDays ⟨y, m, d⟩ k = ⟨(if m = 12 then y + 1 else y), (if m = 12 then 1 else m + 1), e⟩ := by
  subst hk
  simp only [Date.addDays]
  have hadj := toRataDie_next_first y m h1 h2
  have hlin1 := toRataDie_day_lin y m d (monthLength y m)
  have hlin2 := toRataDie_day_lin (if m = 12 then y + 1 else y) (if m = 12 then 1 else m + 1) 1 e
  rw [show toRataDie ⟨y, m, d⟩ + ((monthLength y m : Int) - d + e) =
      toRataDie ⟨(if m = 12 then y + 1 else y), (if m = 12 then 1 else m + 1), e⟩ from by
    rw [hlin2, hadj, hlin1]; ring]
  exact ofRataDie_toRataDie _ _ e hv2

theorem findDowLoop_eq (fuel : Nat) (δ : Nat) (y : Int) (m d : Nat) (w : Weekday)
    (hv : validYmd y m d = true)
    (hδ7 : δ < 7)
    (hδ : ((toRataDie ⟨y, m, d⟩ + 3) % 7 + δ) % 7 = numDaysFromMonday w)
    (hfit : d + δ ≤ monthLength y m)
    (hfuel : δ < fuel) :
    findDowLoop fuel ⟨y, m, d⟩ m w = ⟨y, m, d + δ⟩ := by
  induction fuel generalizing d δ with
  | zero => omega
  | succ fuel ih =>
    have hval := hv
    simp only [validYmd, Bool.and_eq_true, decide_eq_true_eq] at hval
    obtain ⟨⟨⟨hm1, hm2⟩, hd1⟩, hd2⟩ := hval
    match δ with
    | 0 =>
      have hw : Date.weekday ⟨y, m, d⟩ = w := by
        rw [weekday_eq_iff]
        omega
      simp only [findDowLoop]
      rw [if_neg (fun hc => hc.2 hw)]
      norm_num
    | δ' + 1 =>
      have hw : Date.weekday ⟨y, m, d⟩ ≠ w := by
        rw [ne_eq, weekday_eq_iff]
        omega
      simp only [findDowLoop]
      rw [if_pos ⟨by trivial, hw⟩]
      have hstep : Date.addDays ⟨y, m, d⟩ 1 = ⟨y, m, d + 1⟩ := by
        apply addDays_to y m d (d + 1) 1
        · simp only [validYmd, Bool.and_eq_true, decide_eq_true_eq]
          refine ⟨⟨⟨hm1, hm2⟩, by omega⟩, by omega⟩
        · push_cast; ring
      rw [hstep]
      have hlin := toRataDie_day_lin y m d (d + 1)
      have := ih δ' (d + 1)
        (by simp only [validYmd, Bool.and_eq_true, decide_eq_true_eq]
            refine ⟨⟨⟨hm1, hm2⟩, by omega⟩, by omega⟩)
        (by omega)
        (by rw [hlin]; push_cast; push_cast at hδ; omega)
        (by omega) (by omega)
      rw [this]
      congr 1
      omega

theorem addDays_from_next (y : Int) (m e j : Nat) (k : Int) (h1 : 1 ≤ m) (h2 : m ≤ 12)
    (hvj : validYmd y m j = true)
    (hk : k = (j : Int) - (monthLength y m) - e) :
    Date.addDays ⟨(if m = 12 then y + 1 else y), (if m = 12 then 1 else m + 1), e⟩ k
      = ⟨y, m, j⟩ := by
  subst hk
  simp only [Date.addDays]
  have hadj := toRataDie_next_first y m h1 h2
  have hlin1 := toRataDie_day_lin (if m = 12 then y + 1 else y) (if m = 12 then 1 else m + 1) 1 e
  have hlin2 := toRataDie_day_lin y m (monthLength y m) j
  rw [show toRataDie ⟨(if m = 12 then y + 1 else y), (if m = 12 then 1 else m + 1), e⟩ +
      ((j : Int) - (monthLength y m) - e) = toRataDie ⟨y, m, j⟩ from by
    rw [hlin1, hadj, hlin2]; push_cast; ring]
  exact ofRataDie_toRataDie _ _ j hvj

theorem numDaysFromMonday_le (w : Weekday) : numDaysFromMonday w ≤ 6 := by
  cases w <;> simp [numDaysFromMonday]

theorem find_nth_dow_five_eq (y : Int) (m dw : Nat) (h1 : 1 ≤ m) (h2 : m ≤ 12)
    (h3 : 1 ≤ dw) (h4 : dw ≤ 7) (w : Weekday) (hw : weekdayOfDowNum dw = some w) :
    ∃ f : Nat, 1 ≤ f ∧ f ≤ 7 ∧ Date.weekday ⟨y, m, f⟩ = w ∧
      (∀ g : Nat, 1 ≤ g → g < f → Date.weekday ⟨y, m, g⟩ ≠ w) ∧
      find_nth_dow y m dw 5 =
        some ⟨y, m, if f + 28 ≤ monthLength y m then f + 28 else f + 21⟩ := by
  obtain ⟨hL1, hL2⟩ := monthLength_bounds y m h1 h2
  have hv1 : validYmd y m 1 = true := by
    simp only [validYmd, Bool.and_eq_true, decide_eq_true_eq]
    omega
  have ht := numDaysFromMonday_le w
  set r : Int := (toRataDie ⟨y, m, 1⟩ + 3) % 7 with hr
  have hr0 : 0 ≤ r := Int.emod_nonneg _ (by norm_num)
  have hr7 : r < 7 := Int.emod_lt_of_pos _ (by norm_num)
  set t : Nat := numDaysFromMonday w with htdef
  obtain ⟨δ, hδ7, hδ⟩ : ∃ δ : Nat, δ < 7 ∧ (r + (δ : Int)) % 7 = t := by
    refine ⟨((t - r) % 7).toNat, by omega, by omega⟩
  have hloop := findDowLoop_eq 62 δ y m 1 w hv1 hδ7 (by rw [← hr]; omega) (by omega) (by omega)
  set f : Nat := 1 + δ with hfdef
  have hwf : Date.weekday ⟨y, m, f⟩ = w := by
    rw [weekday_eq_iff]
    have := toRataDie_day_lin y m 1 f
    omega
  have hfirst : ∀ g : Nat, 1 ≤ g → g < f → Date.weekday ⟨y, m, g⟩ ≠ w := by
    intro g hg1 hgf
    rw [ne_eq, weekday_eq_iff]
    have := toRataDie_day_lin y m 1 g
    omega
  refine ⟨f, by omega, by omega, hwf, hfirst, ?_⟩
  by_cases hfit : f + 28 ≤ monthLength y m
  · rw [if_pos hfit]
    simp only [find_nth_dow]
    rw [if_neg (show ¬((5:Nat) = 0 ∨ (5:Nat) > 5 ∨ dw = 0 ∨ dw > 7) by omega), hw]
    simp only [fromYmd?, hv1, if_pos]
    rw [hloop]
    rw [if_pos (show (Date.mk y m (1 + δ)).month = m from rfl)]
    have hstep : Date.addDays ⟨y, m, 1 + δ⟩ (7 * (((5:Nat) : Int) - 1)) = ⟨y, m, f + 28⟩ := by
      apply addDays_to
      · simp only [validYmd, Bool.and_eq_true, decide_eq_true_eq]
        omega
      · push_cast; omega
    rw [hstep]
    simp
  · rw [if_neg hfit]
    simp only [find_nth_dow]
    rw [if_neg (show ¬((5:Nat) = 0 ∨ (5:Nat) > 5 ∨ dw = 0 ∨ dw > 7) by omega), hw]
    simp only [fromYmd?, hv1, if_pos]
    rw [hloop]
    rw [if_pos (show (Date.mk y m (1 + δ)).month = m from rfl)]
    have hnm1 : 1 ≤ (if m = 12 then 1 else m + 1) := by split <;> omega
    have hnm2 : (if m = 12 then 1 else m + 1) ≤ 12 := by split <;> omega
    obtain ⟨hnL1, hnL2⟩ :=
      monthLength_bounds (if m = 12 then y + 1 else y) (if m = 12 then 1 else m + 1) hnm1 hnm2
    have hstep : Date.addDays ⟨y, m, 1 + δ⟩ (7 * (((5:Nat) : Int) - 1)) =
        ⟨(if m = 12 then y + 1 else y), (if m = 12 then 1 else m + 1),
         f + 28 - monthLength y m⟩ := by
      apply addDays_to_next y m (1 + δ) (f + 28 - monthLength y m) _ h1 h2
      · simp only [validYmd, Bool.and_eq_true, decide_eq_true_eq]
        omega
      · push_cast; omega
    rw [hstep]
    have hne : (if m = 12 then 1 else m + 1) ≠ m := by split <;> omega
    have hback : Date.addDays
        ⟨(if m = 12 then y + 1 else y), (if m = 12 then 1 else m + 1), f + 28 - monthLength y m⟩
        (-7) = ⟨y, m, f + 21⟩ := by
      apply addDays_from_next y m (f + 28 - monthLength y m) (f + 21) _ h1 h2
      · simp only [validYmd, Bool.and_eq_true, decide_eq_true_eq]
        omega
      · push_cast; omega
    simp [hne, hback]

theorem dowOccurrences_eq_mod (y : Int) (m : Nat) (w : Weekday) (f : Nat)
    (hwf : Date.weekday ⟨y, m, f⟩ = w) :
    dowOccurrences y m w =
      (List.range' 1 (monthLength y m)).filter (fun d => d % 7 == f % 7) := by
  apply List.filter_congr
  intro d hd
  rw [Bool.eq_iff_iff]
  simp only [beq_iff_eq]
  rw [weekday_eq_iff]
  rw [weekday_eq_iff] at hwf
  have hlin := toRataDie_day_lin y m f d
  omega

theorem filter_mod7_getLast (f L : Nat) (hf1 : 1 ≤ f) (hf7 : f ≤ 7)
    (hL1 : 28 ≤ L) (hL2 : L ≤ 31) :
    ((List.range' 1 L).filter (fun d => d % 7 == f % 7)).getLast? = some (f + 7 * ((L - f) / 7)) ∧
    ((List.range' 1 L).filter (fun d => d % 7 == f % 7)).length = (L - f) / 7 + 1 := by
  interval_cases f <;> interval_cases L <;> refine ⟨by decide, by decide⟩

theorem find_nth_dow_five_last (y : Int) (m dw : Nat) (w : Weekday)
    (h1 : 1 ≤ m) (h2 : m ≤ 12) (h3 : 1 ≤ dw) (h4 : dw ≤ 7)
    (hw : weekdayOfDowNum dw = some w) :
    ∃ Ld : Nat, (dowOccurrences y m w).getLast? = some Ld ∧
      find_nth_dow y m dw 5 = some ⟨y, m, Ld⟩ ∧
      ((dowOccurrences y m w).length = 5 → (dowOccurrences y m w)[4]? = some Ld) := by
  obtain ⟨f, hf1, hf7, hwf, hfirst, hres⟩ := find_nth_dow_five_eq y m dw h1 h2 h3 h4 w hw
  obtain ⟨hL1, hL2⟩ := monthLength_bounds y m h1 h2
  have hocc := dowOccurrences_eq_mod y m w f hwf
  obtain ⟨hlast, hlen⟩ := filter_mod7_getLast f (monthLength y m) hf1 hf7 hL1 hL2
  refine ⟨f + 7 * ((monthLength y m - f) / 7), by rw [hocc]; exact hlast, ?_, ?_⟩
  · rw [hres]
    have hsel : (if f + 28 ≤ monthLength y m then f + 28 else f + 21)
        = f + 7 * ((monthLength y m - f) / 7) := by
      split <;> omega
    rw [hsel]
  · intro hlen5
    rw [hocc] at hlen5 ⊢
    rw [List.getElem?_eq_getElem (by omega)]
    rw [List.getLast?_eq_getElem?] at hlast
    rw [hlen5] at hlast
    rw [List.getElem?_eq_getElem (by omega)] at hlast
    simpa using hlast

example : calculate_easter_date 2024 = some ⟨2024, 3, 31⟩ := by decide

example : calculate_easter_date 2025 = some ⟨2025, 4, 20⟩ := by decide

example : calculate_easter_date 1582 = none := by decide

example : (calculate_easter_date 2024).map Date.weekday = some .sun := by decide

theorem toRataDie_weekday_mod7 (dt : Date) (h3 : 3 ≤ dt.month) :
    (toRataDie dt + 3) % 7 =
    (dt.year + dt.year / 4 - dt.year / 100 + dt.year / 400 +
      ((153 * ((dt.month : Int) - 3) + 2) / 5 + (dt.day : Int)) + 1) % 7 := by
  simp only [toRataDie, if_neg (show ¬ (dt.month ≤ 2) by omega)]
  have e1 : (dt.year - dt.year / 400 * 400) / 4 = dt.year / 4 - 100 * (dt.year / 400) := by
    omega
  have e2 : (dt.year - dt.year / 400 * 400) / 100 = dt.year / 100 - 4 * (dt.year / 400) := by
    omega
  rw [e1, e2]
  omega

theorem easter_final (y b c d i h l m t S : Int)
    (hb : y / 100 = b) (hc : y % 100 = c) (hd : b / 4 = d) (hi : c / 4 = i)
    (key : (5 * b + c + i + d + h + l) % 7 = 4)
    (htdef : t = h + l - 7 * m + 114)
    (hS : S = t - 92) :
    (y + y / 4 - y / 100 + y / 400 + S + 1) % 7 = 6 := by
  have e1 : y = 100 * b + c := by omega
  have e2 : y / 4 = 25 * b + i := by omega
  have e4 : y / 400 = d := by omega
  rw [e2, hb, e4]
  omega

theorem easter_correct (y : Int) (hy : 1583 ≤ y) :
    ∃ dt : Date, calculate_easter_date y = some dt ∧ dt.year = y ∧
      ((dt.month = 3 ∧ 22 ≤ dt.day) ∨ (dt.month = 4 ∧ dt.day ≤ 25)) ∧
      Date.weekday dt = Weekday.sun := by
  simp only [calculate_easter_date]
  rw [if_neg (by omega)]
  rw [show y.tmod 19 = y % 19 from Int.tmod_eq_emod (by omega) (by norm_num)]
  rw [show y.tdiv 100 = y / 100 from Int.tdiv_eq_ediv (by omega) (by norm_num)]
  rw [show y.tmod 100 = y % 100 from Int.tmod_eq_emod (by omega) (by norm_num)]
  generalize hb : y / 100 = b
  generalize ha : y % 19 = a
  generalize hc : y % 100 = c
  rw [show b.tdiv 4 = b / 4 from Int.tdiv_eq_ediv (by omega) (by norm_num)]
  generalize hd : b / 4 = d
  rw [show b.tmod 4 = b % 4 from Int.tmod_eq_emod (by omega) (by norm_num)]
  generalize he : b % 4 = e
  rw [show (b + 8).tdiv 25 = (b + 8) / 25 from Int.tdiv_eq_ediv (by omega) (by norm_num)]
  generalize hf : (b + 8) / 25 = f
  rw [show (b - f + 1).tdiv 3 = (b - f + 1) / 3 from Int.tdiv_eq_ediv (by omega) (by norm_num)]
  generalize hg : (b - f + 1) / 3 = g
  rw [show (19 * a + b - d - g + 15).tmod 30 = (19 * a + b - d - g + 15) % 30 from
    Int.tmod_eq_emod (by omega) (by norm_num)]
  generalize hh : (19 * a + b - d - g + 15) % 30 = h
  rw [show c.tdiv 4 = c / 4 from Int.tdiv_eq_ediv (by omega) (by norm_num)]
  generalize hi : c / 4 = i
  rw [show c.tmod 4 = c % 4 from Int.tmod_eq_emod (by omega) (by norm_num)]
  generalize hk : c % 4 = k
  rw [show (32 + 2 * e + 2 * i - h - k).tmod 7 = (32 + 2 * e + 2 * i - h - k) % 7 from
    Int.tmod_eq_emod (by omega) (by norm_num)]
  generalize hl : (32 + 2 * e + 2 * i - h - k) % 7 = l
  rw [show (a + 11 * h + 22 * l).tdiv 451 = (a + 11 * h + 22 * l) / 451 from
    Int.tdiv_eq_ediv (by omega) (by norm_num)]
  generalize hm : (a + 11 * h + 22 * l) / 451 = m
  rw [show (h + l - 7 * m + 114).tdiv 31 = (h + l - 7 * m + 114) / 31 from
    Int.tdiv_eq_ediv (by omega) (by norm_num)]
  rw [show (h + l - 7 * m + 114).tmod 31 = (h + l - 7 * m + 114) % 31 from
    Int.tmod_eq_emod (by omega) (by norm_num)]
  have hb0 : 15 ≤ b := by omega
  have ha0 : 0 ≤ a ∧ a ≤ 18 := by omega
  have hh0 : 0 ≤ h ∧ h ≤ 29 := by omega
  have hl0 : 0 ≤ l ∧ l ≤ 6 := by omega
  have hm0 : 0 ≤ m ∧ m ≤ 1 := by omega
  have hm1 : m = 1 → 28 ≤ h := by omega
  have ht : 107 ≤ h + l - 7 * m + 114 ∧ h + l - 7 * m + 114 ≤ 148 := by omega
  have key : (5 * b + c + i + d + h + l) % 7 = 4 := by omega
  set t : Int := h + l - 7 * m + 114 with htdef
  by_cases hM : t ≤ 123
  · have hm00 : m = 0 := by omega
    have hMv : (t / 31).toNat = 3 := by omega
    set dv : Nat := (t % 31 + 1).toNat with hdvdef
    have hdv : 22 ≤ dv ∧ dv ≤ 31 := by omega
    have hdint : (dv : Int) = t - 92 := by omega
    rw [hMv]
    have hv : validYmd y 3 dv = true := by
      simp only [validYmd, monthLength, Bool.and_eq_true, decide_eq_true_eq]
      omega
    refine ⟨⟨y, 3, dv⟩, ?_, rfl, Or.inl ⟨rfl, hdv.1⟩, ?_⟩
    · simp only [fromYmd?]
      rw [if_pos hv]
    · rw [weekday_eq_iff]
      simp only [numDaysFromMonday]
      have hww := toRataDie_weekday_mod7 ⟨y, 3, dv⟩ (Nat.le_refl 3)
      dsimp only at hww
      rw [hww]
      have hfin := easter_final y b c d i h l m t ((dv : Int)) hb hc hd hi key htdef (by omega)
      clear ha hf hg hh hk hl hm ht key hv hdv hb hc hd he hi hdint hy hb0 ha0 hh0 hl0 hm0 hm1 hM hm00 hMv hww
      omega
  · have hMv : (t / 31).toNat = 4 := by omega
    set dv : Nat := (t % 31 + 1).toNat with hdvdef
    have hdv : 1 ≤ dv ∧ dv ≤ 25 := by omega
    have hdint : (dv : Int) = t - 123 := by omega
    rw [hMv]
    have hv : validYmd y 4 dv = true := by
      simp only [validYmd, monthLength, Bool.and_eq_true, decide_eq_true_eq]
      omega
    refine ⟨⟨y, 4, dv⟩, ?_, rfl, Or.inr ⟨rfl, hdv.2⟩, ?_⟩
    · simp only [fromYmd?]
      rw [if_pos hv]
    · rw [weekday_eq_iff]
      simp only [numDaysFromMonday]
      have hww := toRataDie_weekday_mod7 ⟨y, 4, dv⟩ (Nat.le_succ 3)
      dsimp only at hww
      rw [hww]
      have hfin := easter_final y b c d i h l m t ((dv : Int) + 31) hb hc hd hi key htdef (by omega)
      clear ha hf hg hh hk hl hm ht key hv hdv hb hc hd he hi hdint hy hb0 ha0 hh0 hl0 hm0 hm1 hM hMv hww
      omega

example : calculate_date_from_rule ("7/4".data) 2024 = some ⟨2024, 7, 4⟩ := by decide

example : calculate_date_from_rule ("5/1#1".data) 2023 = some ⟨2023, 5, 1⟩ := by decide

example : calculate_date_from_rule ("1/1#5".data) 2024 = some ⟨2024, 1, 29⟩ := by decide

example : calculate_date_from_rule ("E".data) 2024 = some ⟨2024, 3, 31⟩ := by decide

example : calculate_date_from_rule ("E+1".data) 2024 = some ⟨2024, 4, 1⟩ := by decide

example : calculate_date_from_rule ("E-2".data) 2024 = some ⟨2024, 3, 29⟩ := by decide

example : calculate_date_from_rule ("1/1?9999".data) 2024 = none := by decide

example : calculate_date_from_rule ("1/1?".data) 2024 = some ⟨2024, 1, 1⟩ := by decide

example : calculate_date_from_rule ("1/1?22".data) 2024 = some ⟨2024, 1, 1⟩ := by decide

example : calculate_date_from_rule ("5/27?1+1".data) 2024 = some ⟨2024, 5, 28⟩ := by decide

example : calculate_date_from_rule ("5/27?2+1".data) 2024 = none := by decide

example : parse_fixed_date_rule ("04-07-1990".data) = some ⟨1990, 7, 4⟩ := by decide

example : parse_fixed_date_rule ("2024-07-04".data) = some ⟨2024, 7, 4⟩ := by decide

example : parse_fixed_date_rule ("12/25/2024".data) = some ⟨2024, 12, 25⟩ := by decide

example : parse_fixed_date_rule ("7/4".data) = none := by decide

example : days_in_month 2024 2 = 29 := by decide

example : days_in_month 2023 2 = 28 := by decide

example : days_in_month 2024 12 = 31 := by decide

example : weeks_in_month ⟨2023, 10, 1⟩ true = 6 := by decide

example : processLine 2024 2025 ("7/4;Independence Day".data) =
    [⟨⟨2024, 7, 4⟩, "Independence Day".data, none, none, none, none⟩,
     ⟨⟨2025, 7, 4⟩, "Independence Day".data, none, none, none, none⟩] := by decide

theorem isDigit_not_ws (c : Char) (h : c.isDigit = true) : isWs c = false := by
  simp only [Char.isDigit, Bool.and_eq_true, decide_eq_true_eq] at h
  simp only [isWs, Char.isWhitespace]
  simp only [Bool.or_eq_false_iff, decide_eq_false_iff_not]
  refine ⟨⟨⟨?_, ?_⟩, ?_⟩, ?_⟩ <;> rintro rfl <;> revert h <;> decide

theorem isDigit_toNat (c : Char) (h : c.isDigit = true) : 48 ≤ c.toNat ∧ c.toNat ≤ 57 := by
  simp only [Char.isDigit, Bool.and_eq_true, decide_eq_true_eq] at h
  exact h

theorem dropWhile_eq_self_of (s : List Char) (h : ∀ c ∈ s, isWs c = false) :
    s.dropWhile isWs = s := by
  cases s with
  | nil => rfl
  | cons c cs =>
      simp only [List.dropWhile]
      rw [h c (List.mem_cons_self c cs)]

theorem trimStr_eq_self (s : List Char) (h : ∀ c ∈ s, isWs c = false) : trimStr s = s := by
  simp only [trimStr]
  rw [dropWhile_eq_self_of s h, dropWhile_eq_self_of s.reverse
    (fun c hc => h c (List.mem_reverse.mp hc)), List.reverse_reverse]

theorem splitFirst?_eq_none (c : Char) (s : List Char) (h : c ∉ s) :
    splitFirst? c s = none := by
  induction s with
  | nil => rfl
  | cons x xs ih =>
      simp only [splitFirst?]
      rw [if_neg (by intro he; subst he; exact h (List.mem_cons_self x xs))]
      rw [ih (fun hm => h (List.mem_cons_of_mem x hm))]
      rfl

theorem splitFirst?_append_cons (c : Char) (l1 l2 : List Char) (h : c ∉ l1) :
    splitFirst? c (l1 ++ c :: l2) = some (l1, l2) := by
  induction l1 with
  | nil => simp [splitFirst?]
  | cons x xs ih =>
      simp only [List.cons_append, splitFirst?, List.append_eq]
      rw [if_neg (by intro he; subst he; exact h (List.mem_cons_self x xs))]
      rw [ih (fun hm => h (List.mem_cons_of_mem x hm))]
      rfl

theorem digits_foldl_lt (s : List Char) (acc : Nat) (h : s.all Char.isDigit = true) :
    s.foldl (fun a c => a * 10 + (c.toNat - 48)) acc < (acc + 1) * 10 ^ s.length := by
  induction s generalizing acc with
  | nil => simp
  | cons c cs ih =>
      simp only [List.all_cons, Bool.and_eq_true] at h
      obtain ⟨hc, hcs⟩ := h
      obtain ⟨h1, h2⟩ := isDigit_toNat c hc
      simp only [List.foldl_cons, List.length_cons]
      calc cs.foldl (fun a c => a * 10 + (c.toNat - 48)) (acc * 10 + (c.toNat - 48))
          < (acc * 10 + (c.toNat - 48) + 1) * 10 ^ cs.length := ih _ hcs
        _ ≤ (acc + 1) * 10 ^ (cs.length + 1) := by
            rw [pow_succ]
            have : acc * 10 + (c.toNat - 48) + 1 ≤ (acc + 1) * 10 := by omega
            exact Nat.mul_le_mul_right _ this |>.trans_eq (by ring)

theorem parseI64?_digits (s : List Char) (hne : s ≠ []) (hd : s.all Char.isDigit = true)
    (hlen : s.length ≤ 18) : ∃ v : Int, 0 ≤ v ∧ parseI64? s = some v := by
  obtain ⟨c, cs, rfl⟩ : ∃ c cs, s = c :: cs := by
    cases s with
    | nil => exact absurd rfl hne
    | cons c cs => exact ⟨c, cs, rfl⟩
  have hc : c.isDigit = true := by
    simp only [List.all_cons, Bool.and_eq_true] at hd
    exact hd.1
  obtain ⟨h48, h57⟩ := isDigit_toNat c hc
  have hnotplus : c ≠ '+' := by
    intro he
    subst he
    simp at h48
  have hnotminus : c ≠ '-' := by
    intro he
    subst he
    simp at h48
  have hval : digitsToNat? (c :: cs) = some (digitsVal (c :: cs)) := by
    simp only [digitsToNat?]
    rw [if_pos ⟨by simp, hd⟩]
  have hbound := digits_foldl_lt (c :: cs) 0 hd
  have hlt : digitsVal (c :: cs) < 10 ^ 18 := by
    calc digitsVal (c :: cs)
        < (0 + 1) * 10 ^ (c :: cs).length := hbound
      _ ≤ 1 * 10 ^ 18 := by
          apply Nat.mul_le_mul_left
          exact Nat.pow_le_pow_right (by norm_num) hlen
      _ = 10 ^ 18 := by ring
  refine ⟨(digitsVal (c :: cs) : Nat), by positivity, ?_⟩
  simp only [parseI64?]
  rw [if_neg (by simp only [List.head?_cons, Option.some_inj]; exact hnotplus)]
  rw [if_neg (by simp only [List.head?_cons, Option.some_inj]; exact hnotminus)]
  rw [hval]
  simp only [Option.some_bind]
  norm_num at hlt
  rw [if_pos (by push_cast at hlt ⊢; omega)]

theorem weekdayOfCondDigit_ge7 (n : Nat) (h : 7 ≤ n) : weekdayOfCondDigit n = none := by
  match n, h with
  | n + 7, _ => rfl

theorem calc_rule_cond_digits (mStr dStr cond : List Char) (year : Int) (month day : Nat)
    (target : Date)
    (hm : mStr.all Char.isDigit = true) (hmne : mStr ≠ [])
    (hd : dStr.all Char.isDigit = true)
    (hc : cond.all Char.isDigit = true)
    (hpm : parseU32? mStr = some month) (hpd : parseU32? dStr = some day)
    (hvalid : fromYmd? year month day = some target) :
    calculate_date_from_rule (mStr ++ '/' :: dStr ++ '?' :: cond) year =
      condRuleResult cond target := by
  obtain ⟨m0, mrest, rfl⟩ : ∃ m0 mrest, mStr = m0 :: mrest := by
    cases mStr with
    | nil => exact absurd rfl hmne
    | cons a b => exact ⟨a, b, rfl⟩
  have hm0 : m0.isDigit = true := List.all_eq_true.mp hm m0 (List.mem_cons_self m0 mrest)
  have hmem : ∀ c' ∈ (m0 :: mrest) ++ '/' :: dStr ++ '?' :: cond,
      c'.isDigit = true ∨ c' = '/' ∨ c' = '?' := by
    intro c' hmemc
    simp only [List.mem_append, List.mem_cons] at hmemc
    rcases hmemc with ((h | h) | h | h) | h | h <;>
      first
        | exact Or.inl (by subst h; exact hm0)
        | exact Or.inl (List.all_eq_true.mp hm c' (List.mem_cons_of_mem m0 h))
        | exact Or.inr (Or.inl h)
        | exact Or.inl (List.all_eq_true.mp hd c' h)
        | exact Or.inr (Or.inr h)
        | exact Or.inl (List.all_eq_true.mp hc c' h)
  have htrim : trimStr ((m0 :: mrest) ++ '/' :: dStr ++ '?' :: cond) =
      (m0 :: mrest) ++ '/' :: dStr ++ '?' :: cond := by
    apply trimStr_eq_self
    intro c' hmemc
    rcases hmem c' hmemc with h1 | h1 | h1
    · exact isDigit_not_ws c' h1
    · subst h1; rfl
    · subst h1; rfl
  have hE : ¬ (((m0 :: mrest) ++ '/' :: dStr ++ '?' :: cond).head? = some 'E') := by
    intro hcontra
    simp only [List.cons_append, List.head?_cons, Option.some_inj] at hcontra
    subst hcontra
    exact absurd hm0 (by decide)
  have hnoHash : splitFirst? '#' ((m0 :: mrest) ++ '/' :: dStr ++ '?' :: cond) = none := by
    apply splitFirst?_eq_none
    intro hmemc
    rcases hmem '#' hmemc with h1 | h1 | h1 <;> revert h1 <;> decide
  have hnq : '?' ∉ (m0 :: mrest) ++ '/' :: dStr := by
    intro hmemc
    simp only [List.mem_append, List.mem_cons] at hmemc
    rcases hmemc with (h | h) | h | h <;>
      first
        | (subst h; exact absurd hm0 (by decide))
        | exact absurd (List.all_eq_true.mp hm '?' (List.mem_cons_of_mem m0 h)) (by decide)
        | exact absurd h (by decide)
        | exact absurd (List.all_eq_true.mp hd '?' h) (by decide)
  have hqsplit : splitFirst? '?' ((m0 :: mrest) ++ '/' :: dStr ++ '?' :: cond) =
      some ((m0 :: mrest) ++ '/' :: dStr, cond) := by
    have hassoc : (m0 :: mrest) ++ '/' :: dStr ++ '?' :: cond =
        ((m0 :: mrest) ++ '/' :: dStr) ++ '?' :: cond := by
      simp [List.append_assoc]
    rw [hassoc]
    exact splitFirst?_append_cons '?' _ cond hnq
  have hnsm : '/' ∉ (m0 :: mrest) := by
    intro hmemc
    exact absurd (List.all_eq_true.mp hm '/' hmemc) (by decide)
  have hq2 : '?' ∉ (m0 :: mrest) := fun hmemc => hnq (List.mem_append.mpr (Or.inl hmemc))
  have hnsd : '/' ∉ dStr := by
    intro hmemc
    exact absurd (List.all_eq_true.mp hd '/' hmemc) (by decide)
  have hdsplit : splitHead '/' ((m0 :: mrest) ++ '/' :: dStr) = (m0 :: mrest, some dStr) := by
    simp only [splitHead]
    rw [splitFirst?_append_cons '/' _ dStr hnsm]
  have hds1 : (splitHead '/' dStr).1 = dStr := by
    simp only [splitHead]
    rw [splitFirst?_eq_none '/' dStr hnsd]
  simp only [calculate_date_from_rule, htrim, if_neg hE, hnoHash, hqsplit, hdsplit, hds1,
    hpm, hpd, hvalid, Option.some_bind]

theorem opMatch_digit (c1 : Char) (off : Int) (h : c1.isDigit = true) :
    (match c1 with | '+' => some off | '-' => some (-off) | _ => (none : Option Int)) = none := by
  have h1 : c1 ≠ '+' := fun he => by subst he; exact absurd h (by decide)
  have h2 : c1 ≠ '-' := fun he => by subst he; exact absurd h (by decide)
  split
  · exact absurd rfl h1
  · exact absurd rfl h2
  · rfl

theorem condRuleResult_short (cond : List Char) (target : Date)
    (hc : cond.all Char.isDigit = true) (hlen : cond.length < 3) :
    condRuleResult cond target = some target := by
  simp only [condRuleResult]
  rw [if_neg (by omega)]
  rw [if_pos (Or.inr hc)]

theorem condRuleResult_ge7 (c0 c1 : Char) (rest2 : List Char) (target : Date)
    (hc : (c0 :: c1 :: rest2).all Char.isDigit = true)
    (hne2 : rest2 ≠ [])
    (h7 : 7 ≤ c0.toNat - 48) :
    condRuleResult (c0 :: c1 :: rest2) target = none := by
  have hc0 : c0.isDigit = true := by
    simp only [List.all_cons, Bool.and_eq_true] at hc
    exact hc.1
  have hlp : 0 < rest2.length := List.length_pos.mpr hne2
  have hlen3 : (3:Nat) ≤ (c0 :: c1 :: rest2).length := by
    show (3:Nat) ≤ rest2.length + 1 + 1
    omega
  simp only [condRuleResult, if_pos hlen3, List.getElem?_cons_zero,
    List.getElem?_cons_succ, if_pos hc0, List.drop_succ_cons, List.drop_zero]
  cases hoff : parseI64? rest2 with
  | none => rfl
  | some off =>
      simp only [weekdayOfCondDigit_ge7 _ h7]

theorem condRuleResult_digit_weekday (c0 c1 : Char) (rest2 : List Char) (target : Date)
    (w : Weekday)
    (hc : (c0 :: c1 :: rest2).all Char.isDigit = true)
    (hne2 : rest2 ≠ []) (hlen18 : rest2.length ≤ 18)
    (hw : weekdayOfCondDigit (c0.toNat - 48) = some w) :
    condRuleResult (c0 :: c1 :: rest2) target =
      if target.weekday = w then none else some target := by
  have hc0 : c0.isDigit = true := by
    simp only [List.all_cons, Bool.and_eq_true] at hc
    exact hc.1
  have hc1 : c1.isDigit = true := by
    simp only [List.all_cons, Bool.and_eq_true] at hc
    exact hc.2.1
  have hcr : rest2.all Char.isDigit = true := by
    simp only [List.all_cons, Bool.and_eq_true] at hc
    exact hc.2.2
  obtain ⟨off, hoff0, hoff⟩ := parseI64?_digits rest2 hne2 hcr hlen18
  have hlp : 0 < rest2.length := List.length_pos.mpr hne2
  have hlen3 : (3:Nat) ≤ (c0 :: c1 :: rest2).length := by
    show (3:Nat) ≤ rest2.length + 1 + 1
    omega
  simp only [condRuleResult, if_pos hlen3, List.getElem?_cons_zero,
    List.getElem?_cons_succ, if_pos hc0, List.drop_succ_cons, List.drop_zero, hoff, hw]
  by_cases hwk : target.weekday = w
  · rw [if_pos hwk]
    rw [opMatch_digit c1 off hc1]
    rw [if_pos hwk]
  · rw [if_neg hwk]
    rw [if_neg hwk]
    rw [if_pos (Or.inr hc)]

/-- Claim C3 (corrected): for a conditional rule `MM/DD?COND` whose condition
is empty or all digits, the code returns the plain date only when the
condition has fewer than three characters; a condition of three or more
digits enters the weekday-condition branch: a leading digit above 6 yields
none, and a leading digit 0-6, naming a weekday in eCal numbering
(0 = Sunday … 6 = Saturday), with at most 18 further digits past the first
two (so the offset fits in an `i64`), yields none exactly when the literal
date falls on that weekday, the plain date otherwise. -/
theorem recal_c3 (mStr dStr cond : List Char) (year : Int) (month day : Nat) (target : Date)
    (hm : mStr.all Char.isDigit = true) (hmne : mStr ≠ [])
    (hd : dStr.all Char.isDigit = true)
    (hc : cond.all Char.isDigit = true)
    (hpm : parseU32? mStr = some month) (hpd : parseU32? dStr = some day)
    (hvalid : fromYmd? year month day = some target) :
    (cond.length < 3 →
      calculate_date_from_rule (mStr ++ '/' :: dStr ++ '?' :: cond) year = some target) ∧
    (∀ c0 c1 rest2, cond = c0 :: c1 :: rest2 → rest2 ≠ [] → 7 ≤ c0.toNat - 48 →
      calculate_date_from_rule (mStr ++ '/' :: dStr ++ '?' :: cond) year = none) ∧
    (∀ c0 c1 rest2 w, cond = c0 :: c1 :: rest2 → rest2 ≠ [] → rest2.length ≤ 18 →
      weekdayOfCondDigit (c0.toNat - 48) = some w →
      calculate_date_from_rule (mStr ++ '/' :: dStr ++ '?' :: cond) year =
        if target.weekday = w then none else some target) := by
  have hred := calc_rule_cond_digits mStr dStr cond year month day target
    hm hmne hd hc hpm hpd hvalid
  refine ⟨?_, ?_, ?_⟩
  · intro hlen
    rw [hred]
    exact condRuleResult_short cond target hc hlen
  · intro c0 c1 rest2 hcond hne2 h7
    subst hcond
    rw [hred]
    exact condRuleResult_ge7 c0 c1 rest2 target hc hne2 h7
  · intro c0 c1 rest2 w hcond hne2 hlen18 hw
    subst hcond
    rw [hred]
    exact condRuleResult_digit_weekday c0 c1 rest2 target w hc hne2 hlen18 hw

/-- Claim C3 counterexample: the all-digit condition `9999` (the
`MM/DD?YYYY` shorthand) does not degrade to the plain date: the rule
`1/1?9999` yields no date at all for 2024. -/
theorem recal_c3_counterexample :
    calculate_date_from_rule ("1/1?9999".data) 2024 = none ∧
    calculate_date_from_rule ("1/1?9999".data) 2024 ≠ some ⟨2024, 1, 1⟩ := by
  refine ⟨by decide, by decide⟩

theorem recal_c3_witness :
    ("22".data).length < 3 ∧
    calculate_date_from_rule ("1".data ++ '/' :: "1".data ++ '?' :: "22".data) 2024 =
      some ⟨2024, 1, 1⟩ :=
  ⟨by decide,
   (recal_c3 ("1".data) ("1".data) ("22".data) 2024 1 1 ⟨2024, 1, 1⟩
     (by decide) (by decide) (by decide) (by decide) (by decide) (by decide) (by decide)).1
     (by decide)⟩

/-- Claim C1: for every year at least 1583, `calculate_easter_date` returns a
date of that year between 22 March and 25 April inclusive whose weekday is
Sunday; for every earlier year it returns none. -/
theorem recal_c1 (y : Int) :
    (y < 1583 → calculate_easter_date y = none) ∧
    (1583 ≤ y → ∃ dt : Date, calculate_easter_date y = some dt ∧ dt.year = y ∧
      ((dt.month = 3 ∧ 22 ≤ dt.day) ∨ (dt.month = 4 ∧ dt.day ≤ 25)) ∧
      Date.weekday dt = Weekday.sun) := by
  constructor
  · intro h
    simp only [calculate_easter_date]
    rw [if_pos h]
  · intro h
    exact easter_correct y h

theorem recal_c1_witness :
    ((1500 : Int) < 1583 ∧ calculate_easter_date 1500 = none) ∧
    ((1583 : Int) ≤ 2024 ∧ ∃ dt : Date, calculate_easter_date 2024 = some dt ∧
      dt.year = 2024 ∧
      ((dt.month = 3 ∧ 22 ≤ dt.day) ∨ (dt.month = 4 ∧ dt.day ≤ 25)) ∧
      Date.weekday dt = Weekday.sun) :=
  ⟨⟨by norm_num, (recal_c1 1500).1 (by norm_num)⟩,
   ⟨by norm_num, (recal_c1 2024).2 (by norm_num)⟩⟩

/-- Claim C2 (corrected): for a valid month and weekday number, rule `#5`
returns the last occurrence of that weekday in the month, which is the
literal fifth occurrence whenever five exist; `5/1#1` for 2023 yields
2023-05-01, and `1/1#5` for 2024 yields 2024-01-29 (January 2024 has five
Mondays, so the literal fifth exists). -/
theorem recal_c2 :
    (∀ (y : Int) (m dw : Nat) (w : Weekday), 1 ≤ m → m ≤ 12 → 1 ≤ dw → dw ≤ 7 →
      weekdayOfDowNum dw = some w →
      ∃ L : Nat, (dowOccurrences y m w).getLast? = some L ∧
        find_nth_dow y m dw 5 = some ⟨y, m, L⟩ ∧
        ((dowOccurrences y m w).length = 5 → (dowOccurrences y m w)[4]? = some L)) ∧
    calculate_date_from_rule ("5/1#1".data) 2023 = some ⟨2023, 5, 1⟩ ∧
    calculate_date_from_rule ("1/1#5".data) 2024 = some ⟨2024, 1, 29⟩ := by
  refine ⟨?_, by decide, by decide⟩
  intro y m dw w h1 h2 h3 h4 hw
  exact find_nth_dow_five_last y m dw w h1 h2 h3 h4 hw

theorem recal_c2_counterexample :
    calculate_date_from_rule ("1/1#5".data) 2024 = some ⟨2024, 1, 29⟩ ∧
    calculate_date_from_rule ("1/1#5".data) 2024 ≠ some ⟨2024, 1, 22⟩ := by
  refine ⟨by decide, by decide⟩

theorem recal_c2_witness :
    weekdayOfDowNum 1 = some Weekday.mon ∧
    (∃ L : Nat, (dowOccurrences 2024 1 Weekday.mon).getLast? = some L ∧
      find_nth_dow 2024 1 1 5 = some ⟨2024, 1, L⟩ ∧
      ((dowOccurrences 2024 1 Weekday.mon).length = 5 →
        (dowOccurrences 2024 1 Weekday.mon)[4]? = some L)) :=
  ⟨by decide,
   recal_c2.1 2024 1 1 Weekday.mon (by decide) (by decide) (by decide) (by decide) (by decide)⟩

/-- Claim C4 (corrected): `end_year_check` is the stated quotient, and the
examined span `[start_year, end_year_check]` covers the year of every
displayed month; `end_year_check` is however the year of the month *after*
the last displayed one, which exceeds the last displayed month's year by one
exactly when the last displayed month is a December. -/
theorem recal_c4 (c : Config) (h1 : 1 ≤ c.start_month) (h2 : c.start_month ≤ 12)
    (h3 : 1 ≤ c.num_months) (h4 : 0 ≤ c.start_year) :
    end_year_check c = (c.start_year * 12 + c.start_month + c.num_months - 1).tdiv 12 ∧
    (∀ idx : Nat, idx < c.num_months →
      c.start_year ≤ display_year c idx ∧ display_year c idx ≤ end_year_check c) ∧
    display_year c (c.num_months - 1) ≤ end_year_check c ∧
    end_year_check c ≤ display_year c (c.num_months - 1) + 1 := by
  have hc1 : (1:Int) ≤ c.start_month := by exact_mod_cast h1
  have hc2 : (c.start_month : Int) ≤ 12 := by exact_mod_cast h2
  have hc3 : (1:Int) ≤ c.num_months := by exact_mod_cast h3
  have ht1 : end_year_check c =
      (c.start_year * 12 + c.start_month + c.num_months - 1) / 12 := by
    simp only [end_year_check]
    rw [Int.tdiv_eq_ediv (by omega) (by norm_num)]
  refine ⟨by rw [ht1, Int.tdiv_eq_ediv (by omega) (by norm_num)], ?_, ?_, ?_⟩
  · intro idx hidx
    have hidx' : (idx : Int) < c.num_months := by exact_mod_cast hidx
    have ht2 : display_year c idx =
        (c.start_year * 12 + c.start_month + idx - 1) / 12 := by
      simp only [display_year]
      rw [Int.tdiv_eq_ediv (by omega) (by norm_num)]
    rw [ht1, ht2]
    constructor
    · omega
    · omega
  · have hm1 : ((c.num_months - 1 : Nat) : Int) = (c.num_months : Int) - 1 := by
      have : 1 ≤ c.num_months := h3
      omega
    have ht2 : display_year c (c.num_months - 1) =
        (c.start_year * 12 + c.start_month + ((c.num_months : Int) - 1) - 1) / 12 := by
      simp only [display_year, hm1]
      rw [Int.tdiv_eq_ediv (by omega) (by norm_num)]
    rw [ht1, ht2]
    omega
  · have hm1 : ((c.num_months - 1 : Nat) : Int) = (c.num_months : Int) - 1 := by
      have : 1 ≤ c.num_months := h3
      omega
    have ht2 : display_year c (c.num_months - 1) =
        (c.start_year * 12 + c.start_month + ((c.num_months : Int) - 1) - 1) / 12 := by
      simp only [display_year, hm1]
      rw [Int.tdiv_eq_ediv (by omega) (by norm_num)]
    rw [ht1, ht2]
    omega

/-- Claim C4 counterexample: with start month December 2024 and one displayed
month, `end_year_check` is 2025 while the (only and hence last) displayed
month is December 2024 — `end_year_check` is not the year containing the
last displayed month. -/
theorem recal_c4_counterexample :
    end_year_check ⟨1, 12, 2024, true, true, true, 3⟩ = 2025 ∧
    display_year ⟨1, 12, 2024, true, true, true, 3⟩ 0 = 2024 ∧
    display_month ⟨1, 12, 2024, true, true, true, 3⟩ 0 = 12 := by
  refine ⟨by decide, by decide, by decide⟩

theorem recal_c4_witness :
    (1 ≤ (⟨12, 1, 2024, true, true, true, 3⟩ : Config).start_month ∧
     (⟨12, 1, 2024, true, true, true, 3⟩ : Config).start_month ≤ 12 ∧
     1 ≤ (⟨12, 1, 2024, true, true, true, 3⟩ : Config).num_months ∧
     0 ≤ (⟨12, 1, 2024, true, true, true, 3⟩ : Config).start_year) ∧
    (end_year_check ⟨12, 1, 2024, true, true, true, 3⟩ =
      ((2024 : Int) * 12 + 1 + 12 - 1).tdiv 12 ∧
     (∀ idx : Nat, idx < (⟨12, 1, 2024, true, true, true, 3⟩ : Config).num_months →
        (2024 : Int) ≤ display_year ⟨12, 1, 2024, true, true, true, 3⟩ idx ∧
        display_year ⟨12, 1, 2024, true, true, true, 3⟩ idx ≤
          end_year_check ⟨12, 1, 2024, true, true, true, 3⟩) ∧
     display_year ⟨12, 1, 2024, true, true, true, 3⟩ 11 ≤
       end_year_check ⟨12, 1, 2024, true, true, true, 3⟩ ∧
     end_year_check ⟨12, 1, 2024, true, true, true, 3⟩ ≤
       display_year ⟨12, 1, 2024, true, true, true, 3⟩ 11 + 1) :=
  ⟨⟨by decide, by decide, by decide, by decide⟩,
   recal_c4 ⟨12, 1, 2024, true, true, true, 3⟩ (by decide) (by decide) (by decide) (by decide)⟩

/-- Claim C9: the expanded event list is a pure function of the rule-file
lines and the configuration; the current date parameter of a program run
influences only the rendered listing, never the events. -/
theorem recal_c9 (lines : List (List Char)) (c : Config) (t1 t2 : Date) :
    (runProgram lines c t1).events = (runProgram lines c t2).events := rfl

theorem fromYmd?_eq_some (y : Int) (m d : Nat) (dt : Date) (h : fromYmd? y m d = some dt) :
    dt = ⟨y, m, d⟩ ∧ validYmd y m d = true := by
  simp only [fromYmd?] at h
  split at h
  · exact ⟨(Option.some_inj.mp h).symm, by assumption⟩
  · exact absurd h (by simp)

theorem expandLoop_date_mem (gen : Int → Option (Date × Option Int))
    (mk : Date → Option Int → Event) (hmk : ∀ dt oy, (mk dt oy).date = dt) :
    ∀ (yrs : List Int) (seen : List Date) (e : Event),
      e ∈ expandLoop gen mk yrs seen → e.date ∉ seen := by
  intro yrs
  induction yrs with
  | nil => intro seen e he; simp [expandLoop] at he
  | cons yr yrs ih =>
      intro seen e he
      simp only [expandLoop] at he
      cases hg : gen yr with
      | none => rw [hg] at he; exact ih seen e he
      | some p =>
          obtain ⟨dt, oy⟩ := p
          rw [hg] at he
          dsimp only at he
          by_cases hmem : dt ∈ seen
          · rw [if_pos hmem] at he; exact ih seen e he
          · rw [if_neg hmem] at he
            rcases List.mem_cons.mp he with h | h
            · subst h; rw [hmk]; exact hmem
            · intro hc
              exact (ih (dt :: seen) e h) (List.mem_cons_of_mem dt hc)

theorem expandLoop_pairwise (gen : Int → Option (Date × Option Int))
    (mk : Date → Option Int → Event) (hmk : ∀ dt oy, (mk dt oy).date = dt) :
    ∀ (yrs : List Int) (seen : List Date),
      List.Pairwise (fun a b : Event => a.date ≠ b.date) (expandLoop gen mk yrs seen) := by
  intro yrs
  induction yrs with
  | nil => intro seen; simp [expandLoop]
  | cons yr yrs ih =>
      intro seen
      simp only [expandLoop]
      cases hg : gen yr with
      | none => exact ih seen
      | some p =>
          obtain ⟨dt, oy⟩ := p
          dsimp only
          by_cases hmem : dt ∈ seen
          · rw [if_pos hmem]; exact ih seen
          · rw [if_neg hmem]
            refine List.Pairwise.cons ?_ (ih (dt :: seen))
            intro e he
            rw [hmk]
            intro hc
            exact (expandLoop_date_mem gen mk hmk yrs (dt :: seen) e he)
              (hc ▸ List.mem_cons_self dt seen)

theorem expandLoop_mem_inv (gen : Int → Option (Date × Option Int))
    (mk : Date → Option Int → Event) :
    ∀ (yrs : List Int) (seen : List Date) (e : Event),
      e ∈ expandLoop gen mk yrs seen →
      ∃ yr ∈ yrs, ∃ dt oy, gen yr = some (dt, oy) ∧ e = mk dt oy := by
  intro yrs
  induction yrs with
  | nil => intro seen e he; simp [expandLoop] at he
  | cons yr yrs ih =>
      intro seen e he
      simp only [expandLoop] at he
      cases hg : gen yr with
      | none =>
          rw [hg] at he
          obtain ⟨yr', hyr', rest⟩ := ih seen e he
          exact ⟨yr', List.mem_cons_of_mem yr hyr', rest⟩
      | some p =>
          obtain ⟨dt, oy⟩ := p
          rw [hg] at he
          dsimp only at he
          by_cases hmem : dt ∈ seen
          · rw [if_pos hmem] at he
            obtain ⟨yr', hyr', rest⟩ := ih seen e he
            exact ⟨yr', List.mem_cons_of_mem yr hyr', rest⟩
          · rw [if_neg hmem] at he
            rcases List.mem_cons.mp he with h | h
            · exact ⟨yr, List.mem_cons_self yr yrs, dt, oy, hg, h⟩
            · obtain ⟨yr', hyr', rest⟩ := ih (dt :: seen) e h
              exact ⟨yr', List.mem_cons_of_mem yr hyr', rest⟩

theorem expandLoop_eq_filterMap (gen : Int → Option (Date × Option Int))
    (mk : Date → Option Int → Event) (hmk : ∀ dt oy, (mk dt oy).date = dt)
    (hyear : ∀ yr dt oy, gen yr = some (dt, oy) → dt.year = yr) :
    ∀ (yrs : List Int) (seen : List Date), yrs.Nodup →
      (∀ dt ∈ seen, dt.year ∉ yrs) →
      expandLoop gen mk yrs seen =
        yrs.filterMap (fun yr => (gen yr).map (fun p => mk p.1 p.2)) := by
  intro yrs
  induction yrs with
  | nil => intro seen _ _; rfl
  | cons yr yrs ih =>
      intro seen hnd hseen
      simp only [expandLoop, List.filterMap_cons]
      cases hg : gen yr with
      | none =>
          exact ih seen (List.Nodup.of_cons hnd)
            (fun dt hdt hmem => hseen dt hdt (List.mem_cons_of_mem yr hmem))
      | some p =>
          obtain ⟨dt, oy⟩ := p
          dsimp only
          have hdy : dt.year = yr := hyear yr dt oy hg
          rw [if_neg (fun hmem => hseen dt hmem (hdy ▸ List.mem_cons_self yr yrs) )]
          congr 1
          apply ih (dt :: seen) (List.Nodup.of_cons hnd)
          intro dt' hdt' hmem
          rcases List.mem_cons.mp hdt' with h | h
          · subst h
            rw [hdy] at hmem
            exact (List.nodup_cons.mp hnd).1 hmem
          · exact hseen dt' h (List.mem_cons_of_mem yr hmem)

theorem yearRange_nodup (lo hi : Int) : (yearRange lo hi).Nodup := by
  simp only [yearRange]
  split
  · refine List.Nodup.map ?_ (List.nodup_range _)
    intro a b hab
    dsimp only at hab
    omega
  · exact List.nodup_nil

theorem yearRange_mem (lo hi yr : Int) : yr ∈ yearRange lo hi ↔ lo ≤ yr ∧ yr ≤ hi := by
  simp only [yearRange]
  split
  · simp only [List.mem_map, List.mem_range]
    constructor
    · rintro ⟨i, hi2, rfl⟩
      omega
    · intro ⟨h1, h2⟩
      refine ⟨(yr - lo).toNat, by omega, by omega⟩
  · simp only [List.not_mem_nil, false_iff]
    omega

/-- Claim C6: within the expansion of a single rule line no two events share
a calendar date (the `added_years` set deduplicates by exact date). -/
theorem recal_c6 (startY endY : Int) (line : List Char) :
    List.Pairwise (fun a b : Event => a.date ≠ b.date) (processLine startY endY line) := by
  rcases hpl : parseLine line with _ | ⟨rule, desc, cat, fg, bg⟩
  · simp [processLine, hpl]
  · simp only [processLine, hpl]
    rcases hpf : parse_fixed_date_rule rule with _ | bd
    · exact expandLoop_pairwise _ _ (fun _ _ => rfl) _ _
    · dsimp only
      split
      · exact expandLoop_pairwise _ _ (fun _ _ => rfl) _ _
      · split
        · rcases fromYmd? bd.year bd.month bd.day with _ | dt
          · exact List.Pairwise.nil
          · exact List.pairwise_singleton _ _
        · exact List.Pairwise.nil

/-- Claim C5: a fixed-date rule tagged `bday` or `anni` expands to exactly
one event per year of the span at or after the fixed year, dated the fixed
month and day in that year with `original_year` the fixed year, years where
the month/day is not a valid date being skipped. -/
theorem recal_c5 (c : Config) (line rule desc : List Char)
    (cat fg bg : Option (List Char)) (bd : Date)
    (hpl : parseLine line = some (rule, desc, cat, fg, bg))
    (hcat : cat = some ("bday".data) ∨ cat = some ("anni".data))
    (hpf : parse_fixed_date_rule rule = some bd) :
    processLine c.start_year (end_year_check c) line =
      (yearRange c.start_year (end_year_check c)).filterMap (fun yr =>
        if bd.year ≤ yr then
          (fromYmd? yr bd.month bd.day).map
            (fun dt => ⟨dt, desc, cat, fg, bg, some bd.year⟩)
        else none) := by
  simp only [processLine, hpl, hpf]
  rw [if_pos hcat]
  rw [expandLoop_eq_filterMap _ _ (fun _ _ => rfl) ?hyear _ [] (yearRange_nodup _ _)
    (by simp)]
  case hyear =>
    intro yr dt oy hg
    split at hg
    · rcases hfe : fromYmd? yr bd.month bd.day with _ | dt2
      · rw [hfe] at hg; exact absurd hg (by simp)
      · rw [hfe] at hg
        simp only [Option.map_some', Option.some_inj, Prod.mk.injEq] at hg
        obtain ⟨rfl, -⟩ := hg
        rw [(fromYmd?_eq_some _ _ _ _ hfe).1]
    · exact absurd hg (by simp)
  apply List.filterMap_congr
  intro yr hyr
  split
  · rcases hfe : fromYmd? yr bd.month bd.day with _ | dt2
    · rfl
    · simp only [Option.map_some']
  · rfl

/-- Claim C8: `weeks_in_month` is the ceiling of (weekOffset + daysInMonth)/7
(stated through its Galois characterisation), week row `w` starts at day
number `7*w - weekOffset + 1`, and with `monday_first` a month starting on
Sunday has offset 6. -/
theorem recal_c8 (ms : Date) (mf : Bool) :
    (∀ k : Nat, weeks_in_month ms mf ≤ k ↔
        weekOffset ms mf + days_in_month ms.year ms.month ≤ 7 * k) ∧
    (∀ w : Nat, get_week_start_day ms w mf =
        7 * (w : Int) - (weekOffset ms mf : Int) + 1) ∧
    (mf = true → ms.weekday = Weekday.sun → weekOffset ms mf = 6) := by
  refine ⟨?_, ?_, ?_⟩
  · intro k
    show (weekOffset ms mf + days_in_month ms.year ms.month + 6) / 7 ≤ k ↔ _
    omega
  · intro w
    show ((w * 7 : Nat) : Int) - (weekOffset ms mf : Int) + 1 = _
    push_cast
    ring
  · intro hmf hsun
    rw [weekOffset, hmf, hsun]
    rfl

theorem recal_c8_witness :
    weeks_in_month ⟨2023, 10, 1⟩ true ≤ 6 ∧
    get_week_start_day ⟨2023, 10, 1⟩ 1 true = 2 ∧
    weekOffset ⟨2023, 10, 1⟩ true = 6 :=
  ⟨((recal_c8 ⟨2023, 10, 1⟩ true).1 6).mpr (by decide),
   by rw [(recal_c8 ⟨2023, 10, 1⟩ true).2.1 1,
          (recal_c8 ⟨2023, 10, 1⟩ true).2.2 rfl (by decide)]; norm_num,
   (recal_c8 ⟨2023, 10, 1⟩ true).2.2 rfl (by decide)⟩

/-- Claim C7: rule-line parsing is total on non-blank, non-comment lines,
and a right side opening `[` without a matching `]` becomes the whole
description with no metadata. -/
theorem recal_c7 (line : List Char)
    (h1 : trimStr line ≠ []) (h2 : (trimStr line).head? ≠ some '#') :
    (parseLine line).isSome = true ∧
    (∀ left right : List Char,
      splitFirst? ';' (trimStr line) = some (left, right) →
      (trimStr right).head? = some '[' →
      splitFirst? ']' (trimStr right) = none →
      parseLine line = some (trimStr left, trimStr right, none, none, none)) := by
  constructor
  · simp only [parseLine]
    rw [if_neg h1, if_neg h2]
    rcases splitFirst? ';' (trimStr line) with _ | ⟨left, right⟩
    · dsimp only
      rcases splitFirstPred? isWs (trimStr (trimStr line)) with _ | ⟨a, b⟩ <;> rfl
    · dsimp only
      split
      · rcases splitFirst? ']' (trimStr right) with _ | ⟨pre, post⟩ <;> rfl
      · rfl
  · intro left right hsp hbr hno
    simp only [parseLine]
    rw [if_neg h1, if_neg h2, hsp]
    dsimp only
    rw [if_pos hbr, hno]

theorem recal_c7_witness :
    (parseLine ("1/1;[unclosed birthday".data)).isSome = true ∧
    parseLine ("1/1;[unclosed birthday".data) =
      some ("1/1".data, "[unclosed birthday".data, none, none, none) :=
  ⟨(recal_c7 ("1/1;[unclosed birthday".data) (by decide) (by decide)).1,
   (recal_c7 ("1/1;[unclosed birthday".data) (by decide) (by decide)).2
     ("1/1".data) ("[unclosed birthday".data) (by decide) (by decide) (by decide)⟩

theorem processLine_original_year (startY endY : Int) (line : List Char) (e : Event)
    (he : e ∈ processLine startY endY line) (y0 : Int)
    (hoy : e.original_year = some y0) :
    (e.category = some ("bday".data) ∨ e.category = some ("anni".data)) ∧
      y0 ≤ e.date.year := by
  rcases hpl : parseLine line with _ | ⟨rule, desc, cat, fg, bg⟩
  · simp [processLine, hpl] at he
  · simp only [processLine, hpl] at he
    rcases hpf : parse_fixed_date_rule rule with _ | bd
    · rw [hpf] at he
      dsimp only at he
      obtain ⟨yr, hyr, dt, oy, hg, rfl⟩ := expandLoop_mem_inv _ _ _ _ _ he
      rcases hc : calculate_date_from_rule rule yr with _ | dt2
      · rw [hc] at hg; exact absurd hg (by simp)
      · rw [hc] at hg
        simp only [Option.map_some', Option.some_inj, Prod.mk.injEq] at hg
        obtain ⟨rfl, rfl⟩ := hg
        exact absurd hoy (by simp)
    · rw [hpf] at he
      dsimp only at he
      split at he
      case isTrue hcat =>
        obtain ⟨yr, hyr, dt, oy, hg, rfl⟩ := expandLoop_mem_inv _ _ _ _ _ he
        split at hg
        case isTrue hyle =>
          rcases hfe : fromYmd? yr bd.month bd.day with _ | dt2
          · rw [hfe] at hg; exact absurd hg (by simp)
          · rw [hfe] at hg
            simp only [Option.map_some', Option.some_inj, Prod.mk.injEq] at hg
            obtain ⟨rfl, rfl⟩ := hg
            dsimp only at hoy ⊢
            obtain rfl := Option.some_inj.mp hoy
            refine ⟨hcat, ?_⟩
            rw [(fromYmd?_eq_some _ _ _ _ hfe).1]
            exact hyle
        case isFalse hyle => exact absurd hg (by simp)
      case isFalse hcat =>
        split at he
        · rcases hfe : fromYmd? bd.year bd.month bd.day with _ | dt2
          · rw [hfe] at he; simp at he
          · rw [hfe] at he
            simp only [List.mem_singleton] at he
            subst he
            simp at hoy
        · simp at he

/-- Claim C10: every loaded event carrying an original year is a `bday` or
`anni` event dated at or after that year, so the rendered anniversary
number is never negative. -/
theorem recal_c10 (lines : List (List Char)) (c : Config) (e : Event) (y0 : Int)
    (he : e ∈ load_events lines c) (hoy : e.original_year = some y0) :
    (e.category = some ("bday".data) ∨ e.category = some ("anni".data)) ∧
    y0 ≤ e.date.year ∧
    anniversaryNum e = some (e.date.year - y0) ∧
    ∀ v : Int, anniversaryNum e = some v → 0 ≤ v := by
  have hmem : e ∈ lines.flatMap (processLine c.start_year (end_year_check c)) :=
    List.mem_mergeSort.mp he
  obtain ⟨ln, hln, hpe⟩ := List.mem_flatMap.mp hmem
  obtain ⟨hcat, hle⟩ := processLine_original_year _ _ _ _ hpe _ hoy
  have h3 : anniversaryNum e = some (e.date.year - y0) := by
    unfold anniversaryNum
    rw [hoy]
    rcases hcat with h | h <;> (rw [h]; dsimp only; rw [if_pos (by simp)])
  refine ⟨hcat, hle, h3, ?_⟩
  intro v hv
  rw [h3] at hv
  obtain rfl := Option.some_inj.mp hv
  omega

theorem recal_c10_witness :
    (⟨⟨2024, 7, 4⟩, "Alice".data, some ("bday".data), none, none, some 1990⟩ : Event) ∈
      load_events [("04-07-1990;[bday]Alice".data)] ⟨1, 1, 2024, true, true, true, 3⟩ ∧
    anniversaryNum ⟨⟨2024, 7, 4⟩, "Alice".data, some ("bday".data), none, none, some 1990⟩
      = some 34 := by
  have hm : (⟨⟨2024, 7, 4⟩, "Alice".data, some ("bday".data), none, none, some 1990⟩ : Event) ∈
      load_events [("04-07-1990;[bday]Alice".data)] ⟨1, 1, 2024, true, true, true, 3⟩ := by
    unfold load_events
    exact List.mem_mergeSort.mpr (by decide)
  have h := recal_c10 [("04-07-1990;[bday]Alice".data)] ⟨1, 1, 2024, true, true, true, 3⟩
    ⟨⟨2024, 7, 4⟩, "Alice".data, some ("bday".data), none, none, some 1990⟩ 1990 hm rfl
  refine ⟨hm, ?_⟩
  rw [h.2.2.1]
  decide

theorem recal_c5_witness :
    processLine 2024 2024 ("04-07-1990;[bday]Alice".data) =
      (yearRange 2024 2024).filterMap (fun yr =>
        if (1990 : Int) ≤ yr then
          (fromYmd? yr 7 4).map
            (fun dt => ⟨dt, "Alice".data, some ("bday".data), none, none, some 1990⟩)
        else none) :=
  recal_c5 ⟨1, 1, 2024, true, true, true, 3⟩ ("04-07-1990;[bday]Alice".data)
    ("04-07-1990".data) ("Alice".data) (some ("bday".data)) none none ⟨1990, 7, 4⟩
    (by decide) (Or.inl rfl) (by decide)
